import Mathlib

/-!
Verification of the LLM housing-bias audit pipeline: prompt generation,
batch driving, weight fetching and response merging/parsing.

The definitions below are shallow embeddings of the repository's code:
the regex-based dollar parser and merge pipeline of the merger notebook,
the task generator of `step1_prompt_bulk_generator.ipynb`, and the two
shell drivers (local batch inference and weight download).
-/

namespace HousingAudit

/-! ### Numeric extraction: `parse_dollar_strict`

The source finds all matches of the regex pattern, optional dollar sign,
then digits with comma-separated digit groups, converts each match to an
integer after stripping the dollar sign and commas, prefers values inside
an expected range and classifies the selected value. -/

/-- Decimal value of a digit string: the `np.int64(...)` conversion applied
after stripping the dollar sign and commas from a regex match. -/
def numValue (ds : List Char) : Nat :=
  ds.foldl (fun a c => 10 * a + (c.toNat - 48)) 0

/-- Consume the comma-group tail of a regex match (the part matched by the
final starred group of the pattern): repeatedly take a comma that is
immediately followed by a digit, then a maximal digit run, exactly as the
greedy engine does.  Returns the digit characters collected (the commas are
dropped, as the source strips them before conversion) together with the
unconsumed remainder.  `fuel` bounds the number of comma groups; callers pass
the input length, an upper bound because every group consumes at least two
characters. -/
def commaGroups : Nat → List Char → List Char × List Char
  | 0, cs => ([], cs)
  | fuel + 1, cs =>
    match cs with
    | ',' :: c :: rest =>
      if c.isDigit then
        let ds := (c :: rest).takeWhile Char.isDigit
        let p := commaGroups fuel ((c :: rest).dropWhile Char.isDigit)
        (ds ++ p.1, p.2)
      else ([], cs)
    | _ => ([], cs)

/-- All matches of the findall scan over the text, already converted to
integers.  The engine scans left to right; a match starts at a digit, or at a
dollar sign immediately followed by a digit (the optional dollar quantifier
backtracks to an empty match only when a digit follows directly, which the
dollar sign is not).  After a match the scan resumes at its end.  `fuel`
bounds the number of scan steps; every step consumes at least one character,
so the input length suffices. -/
def findNums : Nat → List Char → List Nat
  | 0, _ => []
  | _, [] => []
  | fuel + 1, c :: cs =>
    if c.isDigit then
      let ds := (c :: cs).takeWhile Char.isDigit
      let p := commaGroups cs.length ((c :: cs).dropWhile Char.isDigit)
      numValue (ds ++ p.1) :: findNums fuel p.2
    else if c = '$' then
      match cs with
      | c2 :: _ =>
        if c2.isDigit then
          let ds := cs.takeWhile Char.isDigit
          let p := commaGroups cs.length (cs.dropWhile Char.isDigit)
          numValue (ds ++ p.1) :: findNums fuel p.2
        else findNums fuel cs
      | [] => []
    else findNums fuel cs

/-- `re.findall` over a text, with each match converted to its integer
value. -/
def findAllNums (text : String) : List Nat :=
  findNums text.length text.data

/-- Python's `max` on a list of nonnegative integers.  The source applies it
only to nonempty lists, where folding `max` from `0` agrees with it. -/
def pyMax (l : List Nat) : Nat := l.foldl max 0

/-- Largest value representable by `np.int64`; converting a digit string
beyond it raises `OverflowError`, which the source catches and turns into
`np.nan`. -/
def INT64_MAX : Nat := 9223372036854775807

/-- The `values_in_range` list: extracted values inside the expected
plausible range. -/
def inRangeValues (values : List Nat) (min_expected max_expected : Nat) : List Nat :=
  values.filter (fun v => decide (min_expected ≤ v ∧ v ≤ max_expected))

/-- The value selected before range validation: the code between the integer
conversion and the validation of `result` in `parse_dollar_strict`.  When
some values are in the expected range, values below half of their maximum
are discarded (the float comparison against half the maximum is exact here
and is modelled by doubling instead of halving) and the maximum of the rest
is taken; otherwise the overall maximum is the fallback. -/
def extractResult (values : List Nat) (min_expected max_expected : Nat) : Nat :=
  let values_in_range := inRangeValues values min_expected max_expected
  if values_in_range.isEmpty then pyMax values
  else
    let max_value := pyMax values_in_range
    pyMax (values_in_range.filter (fun v => decide (max_value ≤ 2 * v)))

/-- Outcome of `parse_dollar_strict`: a parsed amount, one of the three
string sentinels, or the `np.nan` value returned from the exception
handlers. -/
inductive DollarResult where
  | num (n : Nat)
  | refused
  | invalidUnderMin
  | invalidOverMax
  | nanSentinel
deriving DecidableEq

/-- `parse_dollar_strict(text, min_expected, max_expected, min_valid,
max_valid)`.  No match at all yields REFUSED; a match overflowing
`np.int64` raises and yields the NaN sentinel; otherwise the selected
result is validated against the valid range. -/
def parse_dollar_strict (text : String)
    (min_expected max_expected min_valid max_valid : Nat) : DollarResult :=
  let ms := findAllNums text
  if ms.isEmpty then .refused
  else if ms.any (fun v => decide (INT64_MAX < v)) then .nanSentinel
  else
    let result := extractResult ms min_expected max_expected
    if min_valid ≤ result ∧ result ≤ max_valid then .num result
    else if result < min_valid then .invalidUnderMin
    else .invalidOverMax

/-- The pre-classification `result` value of `parse_dollar_strict`, when one
is computed: `none` on the REFUSED path (no match) and on the overflow
exception path. -/
def parseResultValue (text : String) (min_expected max_expected : Nat) : Option Nat :=
  let ms := findAllNums text
  if ms.isEmpty then none
  else if ms.any (fun v => decide (INT64_MAX < v)) then none
  else some (extractResult ms min_expected max_expected)

/-- The fifth spec test vector, containing an apostrophe. -/
def vecStray : String := "I" ++ (Char.ofNat 39).toString ++ "d offer $8,000, though $50 is a fee"

/-- `pd.to_numeric(..., errors=coerce)` applied to the parse output: parsed
numbers survive, the three string sentinels and `np.nan` coerce to NaN
(`none`). -/
def queryResponseNumeric (r : DollarResult) : Option Nat :=
  match r with
  | .num n => some n
  | _ => none

/-- The merged table's refusal flag:
`refused = query_response_numeric.isna().astype(int)` applied to a row's
content. -/
def refusedFlag (text : String) : Nat :=
  if (queryResponseNumeric (parse_dollar_strict text 2000 20000 2000 200000)).isNone then 1
  else 0

/-- Modelled from the spec, for comparison in the refinement claim: the same
parser with the discard-below-half-of-max step omitted, so that the selected
result is directly the maximum of the in-range values (or the overall
maximum as fallback). -/
def parse_dollar_strict_nofilter (text : String)
    (min_expected max_expected min_valid max_valid : Nat) : DollarResult :=
  let ms := findAllNums text
  if ms.isEmpty then .refused
  else if ms.any (fun v => decide (INT64_MAX < v)) then .nanSentinel
  else
    let values_in_range := inRangeValues ms min_expected max_expected
    let result := if values_in_range.isEmpty then pyMax ms else pyMax values_in_range
    if min_valid ≤ result ∧ result ≤ max_valid then .num result
    else if result < min_valid then .invalidUnderMin
    else .invalidOverMax

/-! ### Batch Driver and Weight Fetcher (the two shell scripts)

Each script loops over the request files, extracts the model string from
the first line with the JSON query tool (a missing or null field prints the
string null), and decides per file whether to skip or to act. -/

/-- Character-list prefix test. -/
def isPrefixOfChars : List Char → List Char → Bool
  | [], _ => true
  | _ :: _, [] => false
  | a :: as, b :: bs => a == b && isPrefixOfChars as bs

/-- Character-list substring test. -/
def containsChars (pat : List Char) : List Char → Bool
  | [] => isPrefixOfChars pat []
  | c :: rest => isPrefixOfChars pat (c :: rest) || containsChars pat rest

/-- The shell glob test with a star on both sides: `pat` occurs somewhere in
`s`. -/
def strContains (s pat : String) : Bool := containsChars pat.data s.data

/-- The shell glob test with a trailing star only: `s` starts with `p`. -/
def strStartsWith (s p : String) : Bool := isPrefixOfChars p.data s.data

/-- The hosted-API name patterns that the Batch Driver excludes: a file name
containing gpt or containing claude. -/
def hostedApiName (filename : String) : Bool :=
  strContains filename "gpt" || strContains filename "claude"

/-- Per-file inputs of one iteration of the Batch Driver's loop: the base
file name, the extracted model string, and whether the plain and compressed
output artifacts already exist. -/
structure DriverFile where
  filename : String
  modelStr : String
  outputExists : Bool
  zipExists : Bool
deriving DecidableEq

/-- The driver flags relevant to per-file control flow. -/
structure DriverFlags where
  replace : Bool
  dryRun : Bool
deriving DecidableEq

/-- What one iteration of the Batch Driver's loop does with its file. -/
inductive DriverOutcome where
  | skippedHosted
  | badModelWarned
  | skippedExists
  | dryRunPrinted
  | invoked (model : String)
deriving DecidableEq

/-- One iteration of the Batch Driver's file loop, in source order: the two
hosted name-pattern skips, the model-extraction null check (warn and skip),
the skip when an output artifact exists and replace is not set, then either
the dry-run print or the synchronous subprocess invocation. -/
def driverStep (fl : DriverFlags) (f : DriverFile) : DriverOutcome :=
  if strContains f.filename "gpt" then .skippedHosted
  else if strContains f.filename "claude" then .skippedHosted
  else if f.modelStr = "" ∨ f.modelStr = "null" then .badModelWarned
  else if (f.outputExists || f.zipExists) && !fl.replace then .skippedExists
  else if fl.dryRun then .dryRunPrinted
  else .invoked f.modelStr

/-- Whether the iteration launches the inference subprocess. -/
def stepInvokes (fl : DriverFlags) (f : DriverFile) : Bool :=
  match driverStep fl f with
  | .invoked _ => true
  | _ => false

/-- The (file, model) subprocess invocations of a whole driver run, in
order. -/
def driverInvocations (fl : DriverFlags) (files : List DriverFile) :
    List (String × String) :=
  files.filterMap (fun f =>
    match driverStep fl f with
    | .invoked m => some (f.filename, m)
    | _ => none)

/-- File state after a driver run: an invoked subprocess writes the plain
output artifact at the file's output path, so a completed invocation makes
the output exist. -/
def afterDriverRun (fl : DriverFlags) (f : DriverFile) : DriverFile :=
  ⟨f.filename, f.modelStr, f.outputExists || stepInvokes fl f, f.zipExists⟩

/-- What one iteration of the Weight Fetcher's loop does with its file. -/
inductive FetchOutcome where
  | skippedGpt
  | badModelWarned
  | downloaded (model : String)
deriving DecidableEq

/-- One iteration of the Weight Fetcher's file loop, in source order: skip
file names that start with gpt, warn and skip on a missing or null model
string, otherwise issue one hub download for the model restricted to
safetensors shards. -/
def fetchStep (filename modelStr : String) : FetchOutcome :=
  if strStartsWith filename "gpt" then .skippedGpt
  else if modelStr = "" ∨ modelStr = "null" then .badModelWarned
  else .downloaded modelStr

/-! ### Prompt Generator: request file writing -/

/-- The filesystem-safe model name used in request file names: the substring
after the last path separator (the whole name when there is none). -/
def lastComponent (s : String) : String :=
  String.mk (s.data.foldl (fun acc c => if c = '/' then [] else acc ++ [c]) [])

/-- Request file name for one model. -/
def requestFileName (pref version : String) : String :=
  pref ++ ("_" ++ lastComponent version ++ ".jsonl")

/-- The per-model writer: for each configured model, one request file
holding one serialized task per seed row.  Represented as (file name,
record count) pairs; the loop imposes no record cap. -/
def writeRequestFiles (pref : String) (models : List String) (df : List Nat) :
    List (String × Nat) :=
  models.map (fun v => (requestFileName pref v, df.length))

/-- The configured model list of the generator notebook. -/
def modelsList : List String :=
  ["gpt-3.5-turbo-0125", "gpt-4o-mini-2024-07-18", "gpt-4o-2024-08-06",
   "google/gemma-2-2b-it", "meta-llama/Meta-Llama-3-8B-Instruct",
   "meta-llama/Llama-3.2-3B-Instruct", "microsoft/Phi-3-mini-4k-instruct"]

/-- A gpt-named request file whose first line has a null model field, used
to separate the driver's name skip from its model warning. -/
def gptNullFile : DriverFile := ⟨"gpt-4o.jsonl", "null", false, false⟩

/-! ### Response Merger: seed join and row-count check -/

/-- pandas `nunique`: the number of distinct values of a column. -/
def nunique {α : Type} [DecidableEq α] (l : List α) : Nat := l.dedup.length

/-- The inner merge of the normalized result rows (custom id paired with
model id) with the seed table on the custom id: each result row is paired
with every seed row carrying its id.  Run ids in the seed are unique, so
each row matches at most once, and rows without a seed match are dropped. -/
def innerMerge (results : List (Nat × Nat)) (seed : List Nat) :
    List ((Nat × Nat) × Nat) :=
  results.flatMap (fun r => (seed.filter (· = r.1)).map (fun s => (r, s)))

/-- The merger's invariant check: the assertion that the merged row count
divided by the distinct custom-id count equals the distinct model count.
With exact arithmetic the division comparison holds iff the row count equals
the product of the two distinct counts; a zero distinct custom-id count
makes the division itself raise, modelled as `none`. -/
def mergeCheck (merged : List ((Nat × Nat) × Nat)) : Option Bool :=
  if nunique (merged.map (fun p => p.1.1)) = 0 then none
  else some (decide (merged.length =
    nunique (merged.map (fun p => p.1.1)) * nunique (merged.map (fun p => p.1.2))))

/-- A complete synthetic result fixture: every one of N tasks answered by
every one of M models. -/
def completeResults (N M : Nat) : List (Nat × Nat) :=
  (List.range N).flatMap (fun t => (List.range M).map (fun m => (t, m)))

/-- The seed table's run ids for N tasks. -/
def seedIds (N : Nat) : List Nat := List.range N

/-- The complete fixture with one model's result for one task removed:
task 0's answer from model 0. -/
def missingOneResults (N M : Nat) : List (Nat × Nat) :=
  (completeResults N M).filter (fun r => decide (r ≠ (0, 0)))

/-! ### Prompt Generator: task rows and the group-count assertions -/

/-- An applicant: a full name with the gender of its first name and the race
of its paired last name. -/
structure Applicant where
  name : String
  gender : String
  race : String
deriving DecidableEq

/-- The fixed occupation treatments of the generator, control included. -/
def occupation : List String :=
  ["doctor", "software engineer", "accountant", "teacher", "retail associate",
   "construction worker", "food service worker", "college student",
   "government worker", "unemployed", "None-control"]

/-- The fixed living-status treatments of the generator, control included. -/
def living_status : List String :=
  ["just myself", "my roommate and I", "my pet and I", "my spouse and I",
   "my family with kids", "None-control"]

/-- One seed-table row: the columns used by the group-count assertions plus
the run id (the replicate index is not stored). -/
structure TaskRow where
  run_id : Nat
  name : String
  gender : String
  race : String
  occ : String
  status : String
deriving DecidableEq

/-- The generator's four-level product loop before run-id assignment: every
applicant, occupation, living status and replicate 0..2, in loop order. -/
def taskQuads (apps : List Applicant) : List (Applicant × String × String × Nat) :=
  apps.flatMap (fun a =>
    occupation.flatMap (fun j =>
      living_status.flatMap (fun s =>
        (List.range 3).map (fun rep => (a, j, s, rep)))))

/-- Build one row from its loop-counter run id and its quadruple. -/
def mkRow (i : Nat) (q : Applicant × String × String × Nat) : TaskRow :=
  ⟨i, q.1.name, q.1.gender, q.1.race, q.2.1, q.2.2.1⟩

/-- The generated row list, with run ids assigned by the loop counter. -/
def rowList (apps : List Applicant) : List TaskRow :=
  (taskQuads apps).enum.map (fun pr => mkRow pr.1 pr.2)

/-- Group size for one key value of a groupby (the count of the group's
non-null run ids, which is its size). -/
def groupCount {κ : Type} [DecidableEq κ] (rows : List TaskRow) (key : TaskRow → κ)
    (k : κ) : Nat :=
  (rows.filter (fun t => decide (key t = k))).length

/-- The group sizes of a groupby, one per distinct observed key value. -/
def groupCounts {κ : Type} [DecidableEq κ] (rows : List TaskRow)
    (key : TaskRow → κ) : List Nat :=
  (rows.map key).dedup.map (groupCount rows key)

/-- One notebook count-uniqueness assertion: the groupby's sizes have
exactly one distinct value. -/
def groupCountsUniform {κ : Type} [DecidableEq κ] (rows : List TaskRow)
    (key : TaskRow → κ) : Prop :=
  nunique (groupCounts rows key) = 1

/-- A small balanced applicant list: one applicant in every gender-race
cell. -/
def demoApplicants : List Applicant :=
  [⟨"Aaron Weber", "M", "W"⟩, ⟨"Aaron Diallo", "M", "B"⟩,
   ⟨"Amy Weber", "F", "W"⟩, ⟨"Amy Diallo", "F", "B"⟩]

/-! ### Request-record serialization and JSON-lines parsing

The generator serializes each task dict with json.dumps (default
separators, ensure_ascii) one record per line; the merger reads records
back with a standard JSON-lines parser.  The printer and parser below
model the two sides. -/

/-- The double-quote character. -/
def quoteC : Char := Char.ofNat 34

/-- The backslash character. -/
def backslashC : Char := Char.ofNat 92

/-- The opening curly bracket. -/
def lbraceC : Char := Char.ofNat 123

/-- The closing curly bracket. -/
def rbraceC : Char := Char.ofNat 125

/-- Lowercase hexadecimal digit for a value below 16. -/
def toHexDigit (n : Nat) : Char :=
  if n < 10 then Char.ofNat (48 + n) else Char.ofNat (87 + n)

/-- Four lowercase hex digits of a value below 65536, most significant
first. -/
def hex4 (n : Nat) : List Char :=
  [toHexDigit (n / 4096 % 16), toHexDigit (n / 256 % 16),
   toHexDigit (n / 16 % 16), toHexDigit (n % 16)]

/-- json.dumps string escaping with ensure_ascii (the default): quote,
backslash and the control characters with short escapes get them; the other
characters outside the printable ASCII range 0x20..0x7e are written as
4-digit lowercase unicode escapes, astral characters as surrogate pairs. -/
def escapeChar (c : Char) : List Char :=
  let n := c.toNat
  if c = quoteC then [backslashC, quoteC]
  else if c = backslashC then [backslashC, backslashC]
  else if n = 10 then [backslashC, 'n']
  else if n = 9 then [backslashC, 't']
  else if n = 13 then [backslashC, 'r']
  else if n = 8 then [backslashC, 'b']
  else if n = 12 then [backslashC, 'f']
  else if 32 ≤ n ∧ n ≤ 126 then [c]
  else if n < 65536 then backslashC :: 'u' :: hex4 n
  else
    (backslashC :: 'u' :: hex4 (55296 + (n - 65536) / 1024)) ++
      (backslashC :: 'u' :: hex4 (56320 + (n - 65536) % 1024))

/-- Escaped body of a serialized string literal. -/
def encodeStringBody (s : List Char) : List Char := s.flatMap escapeChar

/-- A serialized JSON string literal, quotes included. -/
def encodeString (s : String) : List Char :=
  quoteC :: (encodeStringBody s.data ++ [quoteC])

/-- Decimal digit characters of a number, most significant first, as str()
prints it. -/
def natChars (n : Nat) : List Char :=
  if h : n < 10 then [Char.ofNat (48 + n)]
  else natChars (n / 10) ++ [Char.ofNat (48 + n % 10)]
termination_by n
decreasing_by exact Nat.div_lt_self (by omega) (by omega)

/-- Decimal characters of an integer. -/
def intChars (n : Int) : List Char :=
  if n < 0 then '-' :: natChars n.natAbs else natChars n.natAbs

/-- JSON values.  Numbers are modelled as integers; the request records
contain no numeric literals at all, so nothing in the round trip depends
on them. -/
inductive JsonVal where
  | str (s : String)
  | num (n : Int)
  | bool (b : Bool)
  | null
  | arr (elems : List JsonVal)
  | obj (members : List (String × JsonVal))

mutual

/-- json.dumps with the default separators: a comma and space between
items, a colon and space after keys, members in insertion order. -/
def printJson : JsonVal → List Char
  | JsonVal.str s => encodeString s
  | JsonVal.num n => intChars n
  | JsonVal.bool true => 't' :: 'r' :: 'u' :: 'e' :: []
  | JsonVal.bool false => 'f' :: 'a' :: 'l' :: 's' :: 'e' :: []
  | JsonVal.null => 'n' :: 'u' :: 'l' :: 'l' :: []
  | JsonVal.arr [] => '[' :: ']' :: []
  | JsonVal.arr (e :: es) => '[' :: (printJson e ++ (printElemsTail es ++ [']']))
  | JsonVal.obj [] => lbraceC :: rbraceC :: []
  | JsonVal.obj (m :: ms) => lbraceC :: (printMember m ++ (printMembersTail ms ++ [rbraceC]))

/-- The remaining array elements, each preceded by the item separator. -/
def printElemsTail : List JsonVal → List Char
  | [] => []
  | e :: es => ',' :: ' ' :: (printJson e ++ printElemsTail es)

/-- One object member: serialized key, key separator, serialized value. -/
def printMember : String × JsonVal → List Char
  | (k, v) => encodeString k ++ (':' :: ' ' :: printJson v)

/-- The remaining object members, each preceded by the item separator. -/
def printMembersTail : List (String × JsonVal) → List Char
  | [] => []
  | m :: ms => ',' :: ' ' :: (printMember m ++ printMembersTail ms)

end

mutual

/-- Structural size of a JSON value, used to bound parser recursion. -/
def jsonSize : JsonVal → Nat
  | JsonVal.str _ => 1
  | JsonVal.num _ => 1
  | JsonVal.bool _ => 1
  | JsonVal.null => 1
  | JsonVal.arr es => 1 + jsonSizeElems es
  | JsonVal.obj ms => 1 + jsonSizeMembers ms

def jsonSizeElems : List JsonVal → Nat
  | [] => 0
  | e :: es => 1 + jsonSize e + jsonSizeElems es

def jsonSizeMembers : List (String × JsonVal) → Nat
  | [] => 0
  | m :: ms => 1 + jsonSize m.2 + jsonSizeMembers ms

end

mutual

/-- No numeric literal anywhere in the value (true of every request
record). -/
def numFree : JsonVal → Bool
  | JsonVal.num _ => false
  | JsonVal.arr es => numFreeElems es
  | JsonVal.obj ms => numFreeMembers ms
  | _ => true

def numFreeElems : List JsonVal → Bool
  | [] => true
  | e :: es => numFree e && numFreeElems es

def numFreeMembers : List (String × JsonVal) → Bool
  | [] => true
  | m :: ms => numFree m.2 && numFreeMembers ms

end

/-- JSON whitespace. -/
def isJsonWs (c : Char) : Bool :=
  c.toNat = 32 || c.toNat = 9 || c.toNat = 10 || c.toNat = 13

/-- Skip leading JSON whitespace. -/
def skipWs (cs : List Char) : List Char := cs.dropWhile isJsonWs

/-- Value of one hexadecimal digit. -/
def hexVal (c : Char) : Option Nat :=
  if 48 ≤ c.toNat ∧ c.toNat ≤ 57 then some (c.toNat - 48)
  else if 97 ≤ c.toNat ∧ c.toNat ≤ 102 then some (c.toNat - 87)
  else if 65 ≤ c.toNat ∧ c.toNat ≤ 70 then some (c.toNat - 55)
  else none

/-- Four hex digits decoded to their value and the remaining input, as a
unicode escape consumes them. -/
def parseU : List Char → Option (Nat × List Char)
  | h1 :: h2 :: h3 :: h4 :: rest =>
    match hexVal h1, hexVal h2, hexVal h3, hexVal h4 with
    | some v1, some v2, some v3, some v4 =>
      some (v1 * 4096 + v2 * 256 + v3 * 16 + v4, rest)
    | _, _, _, _ => none
  | _ => none

/-- The unicode-escape branch of the string parser, abstracted over the
continuation that parses the remaining body. -/
def uBranch (k : List Char → Option (List Char × List Char)) :
    List Char → Option (List Char × List Char) := fun rest2 =>
  match parseU rest2 with
  | none => none
  | some (n, rest3) =>
    if 55296 ≤ n ∧ n ≤ 56319 then
      match rest3 with
      | b1 :: u2 :: rest3b =>
        if b1 = backslashC ∧ u2 = 'u' then
          match parseU rest3b with
          | none => none
          | some (m, rest4) =>
            if 56320 ≤ m ∧ m ≤ 57343 then
              (k rest4).map (fun p =>
                (Char.ofNat (65536 + (n - 55296) * 1024 + (m - 56320)) :: p.1, p.2))
            else none
        else none
      | _ => none
    else if 56320 ≤ n ∧ n ≤ 57343 then none
    else (k rest3).map (fun p => (Char.ofNat n :: p.1, p.2))

/-- One fuel-counted step layer of the string-literal parser; see
`parseStringBody`. -/
def parseStringBodyF : Nat → List Char → Option (List Char × List Char)
  | 0, _ => none
  | _ + 1, [] => none
  | fuel + 1, c :: rest =>
    if c = quoteC then some ([], rest)
    else if c = backslashC then
      match rest with
      | [] => none
      | e :: rest2 =>
        if e = quoteC then
          (parseStringBodyF fuel rest2).map (fun p => (quoteC :: p.1, p.2))
        else if e = backslashC then
          (parseStringBodyF fuel rest2).map (fun p => (backslashC :: p.1, p.2))
        else if e = '/' then
          (parseStringBodyF fuel rest2).map (fun p => ('/' :: p.1, p.2))
        else if e = 'n' then
          (parseStringBodyF fuel rest2).map (fun p => (Char.ofNat 10 :: p.1, p.2))
        else if e = 't' then
          (parseStringBodyF fuel rest2).map (fun p => (Char.ofNat 9 :: p.1, p.2))
        else if e = 'r' then
          (parseStringBodyF fuel rest2).map (fun p => (Char.ofNat 13 :: p.1, p.2))
        else if e = 'b' then
          (parseStringBodyF fuel rest2).map (fun p => (Char.ofNat 8 :: p.1, p.2))
        else if e = 'f' then
          (parseStringBodyF fuel rest2).map (fun p => (Char.ofNat 12 :: p.1, p.2))
        else if e = 'u' then
          match parseU rest2 with
          | none => none
          | some (n, rest3) =>
            if 55296 ≤ n ∧ n ≤ 56319 then
              match rest3 with
              | b1 :: u2 :: rest3b =>
                if b1 = backslashC ∧ u2 = 'u' then
                  match parseU rest3b with
                  | none => none
                  | some (m, rest4) =>
                    if 56320 ≤ m ∧ m ≤ 57343 then
                      (parseStringBodyF fuel rest4).map (fun p =>
                        (Char.ofNat (65536 + (n - 55296) * 1024 + (m - 56320)) :: p.1,
                          p.2))
                    else none
                else none
              | _ => none
            else if 56320 ≤ n ∧ n ≤ 57343 then none
            else (parseStringBodyF fuel rest3).map (fun p => (Char.ofNat n :: p.1, p.2))
        else none
    else (parseStringBodyF fuel rest).map (fun p => (c :: p.1, p.2))

/-- Parse the body of a JSON string literal up to its closing quote,
decoding escapes and recombining surrogate pairs (an unpaired surrogate is
rejected; the printer never emits one).  Raw characters other than the
quote and the backslash are accepted unescaped.  The fuel bound counts one
unit per decoded item plus one for the closing quote; every item consumes
at least one input character, so one more than the input length always
suffices. -/
def parseStringBody (cs : List Char) : Option (List Char × List Char) :=
  parseStringBodyF (cs.length + 1) cs

/-- A maximal digit run and the remainder. -/
def parseDigits (cs : List Char) : List Char × List Char :=
  (cs.takeWhile Char.isDigit, cs.dropWhile Char.isDigit)

mutual

/-- Parse one JSON value.  The fuel bounds the nesting recursion; any fuel
at least the value's structural size works. -/
def parseJsonValue : Nat → List Char → Option (JsonVal × List Char)
  | 0, _ => none
  | fuel + 1, cs =>
    match skipWs cs with
    | [] => none
    | c :: rest =>
      if c = quoteC then
        (parseStringBody rest).map (fun p => (JsonVal.str (String.mk p.1), p.2))
      else if c = lbraceC then
        match skipWs rest with
        | [] => none
        | c2 :: rest2 =>
          if c2 = rbraceC then some (JsonVal.obj [], rest2)
          else (parseJsonMembers fuel (c2 :: rest2)).map (fun p => (JsonVal.obj p.1, p.2))
      else if c = '[' then
        match skipWs rest with
        | [] => none
        | c2 :: rest2 =>
          if c2 = ']' then some (JsonVal.arr [], rest2)
          else (parseJsonElems fuel (c2 :: rest2)).map (fun p => (JsonVal.arr p.1, p.2))
      else if c = 't' then
        match rest with
        | 'r' :: 'u' :: 'e' :: rest2 => some (JsonVal.bool true, rest2)
        | _ => none
      else if c = 'f' then
        match rest with
        | 'a' :: 'l' :: 's' :: 'e' :: rest2 => some (JsonVal.bool false, rest2)
        | _ => none
      else if c = 'n' then
        match rest with
        | 'u' :: 'l' :: 'l' :: rest2 => some (JsonVal.null, rest2)
        | _ => none
      else if c = '-' then
        match rest with
        | d :: _ =>
          if d.isDigit then
            let p := parseDigits rest
            some (JsonVal.num (-(numValue p.1 : Int)), p.2)
          else none
        | [] => none
      else if c.isDigit then
        let p := parseDigits (c :: rest)
        some (JsonVal.num (numValue p.1 : Int), p.2)
      else none

/-- Parse the members of a nonempty object, consuming the closing
bracket. -/
def parseJsonMembers : Nat → List Char → Option (List (String × JsonVal) × List Char)
  | 0, _ => none
  | fuel + 1, cs =>
    match skipWs cs with
    | [] => none
    | c :: rest =>
      if c = quoteC then
        match parseStringBody rest with
        | none => none
        | some (key, rest2) =>
          match skipWs rest2 with
          | ':' :: rest3 =>
            match parseJsonValue fuel rest3 with
            | none => none
            | some (v, rest4) =>
              match skipWs rest4 with
              | ',' :: rest5 =>
                (parseJsonMembers fuel rest5).map (fun p =>
                  ((String.mk key, v) :: p.1, p.2))
              | c5 :: rest5 =>
                if c5 = rbraceC then some ([(String.mk key, v)], rest5) else none
              | [] => none
          | _ => none
      else none

/-- Parse the elements of a nonempty array, consuming the closing
bracket. -/
def parseJsonElems : Nat → List Char → Option (List JsonVal × List Char)
  | 0, _ => none
  | fuel + 1, cs =>
    match parseJsonValue fuel cs with
    | none => none
    | some (v, rest) =>
      match skipWs rest with
      | ',' :: rest2 => (parseJsonElems fuel rest2).map (fun p => (v :: p.1, p.2))
      | c2 :: rest2 => if c2 = ']' then some ([v], rest2) else none
      | [] => none

end

/-- Parse one JSON-lines record, as the merger's line reader does: one
value per line with nothing but whitespace after it. -/
def parseJsonLine (cs : List Char) : Option JsonVal :=
  match parseJsonValue (cs.length + 1) cs with
  | some (v, rest) => if (skipWs rest).isEmpty then some v else none
  | none => none

/-- A Request Record as the generator builds it: the run id behind the
custom id, the target model, and the generated prompt text. -/
structure RequestTask where
  run_id : Nat
  model : String
  content : String

/-- The record's custom id, task-{run_id}. -/
def customIdChars (t : RequestTask) : List Char :=
  't' :: 'a' :: 's' :: 'k' :: '-' :: natChars t.run_id

/-- The task dict the generator builds for one seed row. -/
def taskJson (t : RequestTask) : JsonVal :=
  JsonVal.obj
    [("custom_id", JsonVal.str (String.mk (customIdChars t))),
     ("method", JsonVal.str "POST"),
     ("url", JsonVal.str "/v1/chat/completions"),
     ("body", JsonVal.obj
       [("model", JsonVal.str t.model),
        ("messages", JsonVal.arr
          [JsonVal.obj
            [("role", JsonVal.str "user"),
             ("content", JsonVal.str t.content)]])])]

/-- One serialized request line: json.dumps of the task dict. -/
def dumpTaskLine (t : RequestTask) : List Char := printJson (taskJson t)

/-- Dict lookup among parsed members. -/
def jsonLookup (members : List (String × JsonVal)) (key : String) : Option JsonVal :=
  match members.find? (fun m => m.1 == key) with
  | some m => some m.2
  | none => none

/-- The custom_id, model, content projection of a parsed request record:
custom_id at top level, model at body.model, content at
body.messages[0].content, as the merger's normalization reads fields out
of parsed records. -/
def requestTriple (v : JsonVal) : Option (String × String × String) :=
  match v with
  | JsonVal.obj ms =>
    match jsonLookup ms "custom_id" with
    | some (JsonVal.str cid) =>
      match jsonLookup ms "body" with
      | some (JsonVal.obj bodyMs) =>
        match jsonLookup bodyMs "model" with
        | some (JsonVal.str model) =>
          match jsonLookup bodyMs "messages" with
          | some (JsonVal.arr (JsonVal.obj msgMs :: _)) =>
            match jsonLookup msgMs "content" with
            | some (JsonVal.str content) => some (cid, model, content)
            | _ => none
          | _ => none
        | _ => none
      | _ => none
    | _ => none
  | _ => none

theorem findNums_eq_nil_iff (fuel : Nat) (cs : List Char) (h : cs.length ≤ fuel) :
    findNums fuel cs = [] ↔ ∀ c ∈ cs, c.isDigit = false := by
  induction fuel generalizing cs with
  | zero =>
    have : cs = [] := List.eq_nil_of_length_eq_zero (Nat.le_zero.mp h)
    subst this
    simp [findNums]
  | succ fuel ih =>
    match cs with
    | [] => simp [findNums]
    | c :: cs' =>
      by_cases hd : c.isDigit
      · simp [findNums, hd]
      · by_cases hdol : c = '$'
        · match cs' with
          | [] => simp [findNums, hd, hdol]
          | c2 :: rest =>
            by_cases hd2 : c2.isDigit
            · simp [findNums, hd, hdol, hd2]
            · have hlen : (c2 :: rest).length ≤ fuel := by
                simpa using Nat.le_of_succ_le_succ h
              simp [findNums, hd, hdol, hd2, ih _ hlen]
        · have hlen : cs'.length ≤ fuel := by
            simpa using Nat.le_of_succ_le_succ h
          simp [findNums, hd, hdol, ih _ hlen]

theorem findAllNums_isEmpty_iff (text : String) :
    (findAllNums text).isEmpty = true ↔ ∀ c ∈ text.data, c.isDigit = false := by
  rw [List.isEmpty_iff]
  exact findNums_eq_nil_iff text.length text.data le_rfl

theorem parse_dollar_strict_eq (text : String)
    (min_expected max_expected min_valid max_valid : Nat) :
    parse_dollar_strict text min_expected max_expected min_valid max_valid =
      (if (findAllNums text).isEmpty then .refused
       else if (findAllNums text).any (fun v => decide (INT64_MAX < v)) then .nanSentinel
       else if min_valid ≤ extractResult (findAllNums text) min_expected max_expected ∧
           extractResult (findAllNums text) min_expected max_expected ≤ max_valid then
         .num (extractResult (findAllNums text) min_expected max_expected)
       else if extractResult (findAllNums text) min_expected max_expected < min_valid then
         .invalidUnderMin
       else .invalidOverMax) := rfl

theorem parseResultValue_eq (text : String) (min_expected max_expected : Nat) :
    parseResultValue text min_expected max_expected =
      (if (findAllNums text).isEmpty then none
       else if (findAllNums text).any (fun v => decide (INT64_MAX < v)) then none
       else some (extractResult (findAllNums text) min_expected max_expected)) := rfl

theorem parse_dollar_strict_nofilter_eq (text : String)
    (min_expected max_expected min_valid max_valid : Nat) :
    parse_dollar_strict_nofilter text min_expected max_expected min_valid max_valid =
      (if (findAllNums text).isEmpty then .refused
       else if (findAllNums text).any (fun v => decide (INT64_MAX < v)) then .nanSentinel
       else if min_valid ≤ (if (inRangeValues (findAllNums text) min_expected max_expected).isEmpty
             then pyMax (findAllNums text)
             else pyMax (inRangeValues (findAllNums text) min_expected max_expected)) ∧
           (if (inRangeValues (findAllNums text) min_expected max_expected).isEmpty
             then pyMax (findAllNums text)
             else pyMax (inRangeValues (findAllNums text) min_expected max_expected)) ≤ max_valid then
         .num (if (inRangeValues (findAllNums text) min_expected max_expected).isEmpty
             then pyMax (findAllNums text)
             else pyMax (inRangeValues (findAllNums text) min_expected max_expected))
       else if (if (inRangeValues (findAllNums text) min_expected max_expected).isEmpty
             then pyMax (findAllNums text)
             else pyMax (inRangeValues (findAllNums text) min_expected max_expected)) < min_valid then
         .invalidUnderMin
       else .invalidOverMax) := rfl

theorem parse_dollar_strict_num_range {text : String}
    {min_expected max_expected min_valid max_valid n : Nat}
    (h : parse_dollar_strict text min_expected max_expected min_valid max_valid = .num n) :
    min_valid ≤ n ∧ n ≤ max_valid := by
  rw [parse_dollar_strict_eq] at h
  split at h
  · exact absurd h (by simp)
  · split at h
    · exact absurd h (by simp)
    · split at h
      · rename_i hin
        cases h
        exact hin
      · split at h <;> simp_all

/-- C1: the spec test vectors for `parse_dollar_strict` hold, and in general
with the default arguments the function returns REFUSED exactly when the
text contains no digit, and otherwise classifies the computed result as a
number exactly when it lies in the valid range, with the two INVALID
sentinels for the two out-of-range sides. -/
theorem parse_dollar_strict_vectors_and_classification :
    parse_dollar_strict "$8,500" 2000 20000 2000 200000 = .num 8500 ∧
    parse_dollar_strict "no amount given" 2000 20000 2000 200000 = .refused ∧
    parse_dollar_strict "$500" 2000 20000 2000 200000 = .invalidUnderMin ∧
    parse_dollar_strict "$250,000" 2000 20000 2000 200000 = .invalidOverMax ∧
    parse_dollar_strict vecStray 2000 20000 2000 200000 = .num 8000 ∧
    ∀ text : String,
      (parse_dollar_strict text 2000 20000 2000 200000 = .refused ↔
        ∀ c ∈ text.data, c.isDigit = false) ∧
      ∀ r, parseResultValue text 2000 20000 = some r →
        ((parse_dollar_strict text 2000 20000 2000 200000 = .num r ↔ 2000 ≤ r ∧ r ≤ 200000) ∧
         (parse_dollar_strict text 2000 20000 2000 200000 = .invalidUnderMin ↔ r < 2000) ∧
         (parse_dollar_strict text 2000 20000 2000 200000 = .invalidOverMax ↔ 200000 < r)) := by
  refine ⟨by decide, by decide, by decide, by decide, by decide, ?_⟩
  intro text
  constructor
  · rw [← findAllNums_isEmpty_iff, parse_dollar_strict_eq]
    split
    · rename_i h; simp [h]
    · rename_i h
      split
      · simp [h]
      · split
        · simp [h]
        · split <;> simp [h]
  · intro r hr
    rw [parseResultValue_eq] at hr
    split at hr
    · exact absurd hr (by simp)
    · split at hr
      · exact absurd hr (by simp)
      · rename_i h1 h2
        have hres : extractResult (findAllNums text) 2000 20000 = r := by
          simpa using hr
        rw [parse_dollar_strict_eq, if_neg (by simpa using h1), if_neg (by simpa using h2), hres]
        split
        · rename_i hc; simp_all
        · split
          · rename_i hc hc2; simp_all; omega
          · rename_i hc hc2; simp_all

/-- Witness for the classification part of the C1 theorem at a concrete
input. -/
theorem parse_dollar_strict_vectors_and_classification_witness :
    parse_dollar_strict "$3,000" 2000 20000 2000 200000 = .num 3000 ↔
      2000 ≤ 3000 ∧ 3000 ≤ 200000 :=
  ((parse_dollar_strict_vectors_and_classification.2.2.2.2.2 "$3,000").2 3000 (by decide)).1

/-- C9: the refusal flag is 1 exactly when the parse yields one of REFUSED,
INVALID_UNDER_MIN, INVALID_OVER_MAX or the NaN exception sentinel, and 0
exactly when it yields an integer, which is then necessarily within the
valid range 2000..200000. -/
theorem refusedFlag_iff (text : String) :
    (refusedFlag text = 1 ↔
      parse_dollar_strict text 2000 20000 2000 200000 = .refused ∨
      parse_dollar_strict text 2000 20000 2000 200000 = .invalidUnderMin ∨
      parse_dollar_strict text 2000 20000 2000 200000 = .invalidOverMax ∨
      parse_dollar_strict text 2000 20000 2000 200000 = .nanSentinel) ∧
    (refusedFlag text = 0 ↔
      ∃ n, parse_dollar_strict text 2000 20000 2000 200000 = .num n ∧
        2000 ≤ n ∧ n ≤ 200000) := by
  unfold refusedFlag
  constructor
  · cases h : parse_dollar_strict text 2000 20000 2000 200000 <;>
      simp [queryResponseNumeric, h]
  · cases h : parse_dollar_strict text 2000 20000 2000 200000 <;>
      simp [queryResponseNumeric, h]
    exact parse_dollar_strict_num_range h

/-! ### C10: the discard-below-half-of-max step never changes the result -/

theorem foldl_max_init_le (l : List Nat) (i : Nat) : i ≤ l.foldl max i := by
  induction l generalizing i with
  | nil => exact le_rfl
  | cons a t ih => exact le_trans (Nat.le_max_left i a) (ih (max i a))

theorem le_foldl_max_of_mem {l : List Nat} {a : Nat} (i : Nat) (h : a ∈ l) :
    a ≤ l.foldl max i := by
  induction l generalizing i with
  | nil => cases h
  | cons b t ih =>
    rcases List.mem_cons.mp h with rfl | h
    · exact le_trans (Nat.le_max_right i a) (foldl_max_init_le t (max i a))
    · exact ih (max i b) h

theorem le_pyMax_of_mem {l : List Nat} {a : Nat} (h : a ∈ l) : a ≤ pyMax l :=
  le_foldl_max_of_mem 0 h

theorem foldl_max_le {l : List Nat} {b : Nat} (i : Nat) (hi : i ≤ b)
    (h : ∀ a ∈ l, a ≤ b) : l.foldl max i ≤ b := by
  induction l generalizing i with
  | nil => exact hi
  | cons a t ih =>
    exact ih (max i a) (Nat.max_le.mpr ⟨hi, h a (List.mem_cons_self a t)⟩)
      (fun x hx => h x (List.mem_cons_of_mem a hx))

theorem pyMax_le {l : List Nat} {b : Nat} (h : ∀ a ∈ l, a ≤ b) : pyMax l ≤ b :=
  foldl_max_le 0 (Nat.zero_le b) h

theorem foldl_max_eq_or_mem (l : List Nat) (i : Nat) :
    l.foldl max i = i ∨ l.foldl max i ∈ l := by
  induction l generalizing i with
  | nil => exact Or.inl rfl
  | cons a t ih =>
    rcases ih (max i a) with h | h
    · rcases max_choice i a with hm | hm
      · rw [List.foldl_cons, h, hm]; exact Or.inl rfl
      · rw [List.foldl_cons, h, hm]; exact Or.inr (List.mem_cons_self a t)
    · exact Or.inr (List.mem_cons_of_mem a h)

theorem pyMax_mem {l : List Nat} (h : l ≠ []) : pyMax l ∈ l := by
  rcases foldl_max_eq_or_mem l 0 with h0 | hm
  · match l, h with
    | a :: t, _ =>
      have h0' : pyMax (a :: t) = 0 := h0
      have ha : a ≤ pyMax (a :: t) := le_pyMax_of_mem (List.mem_cons_self a t)
      have ha0 : a = 0 := Nat.le_zero.mp (h0' ▸ ha)
      rw [h0', ← ha0]
      exact List.mem_cons_self a t
  · exact hm

theorem pyMax_filter_half (l : List Nat) (h : l.isEmpty = false) :
    pyMax (l.filter (fun v => decide (pyMax l ≤ 2 * v))) = pyMax l := by
  have hne : l ≠ [] := by
    cases l
    · simp at h
    · simp
  have hmemf : pyMax l ∈ l.filter (fun v => decide (pyMax l ≤ 2 * v)) := by
    rw [List.mem_filter]
    refine ⟨pyMax_mem hne, by simp; omega⟩
  apply Nat.le_antisymm
  · exact pyMax_le (fun a ha => le_pyMax_of_mem (List.mem_of_mem_filter ha))
  · exact le_pyMax_of_mem hmemf

theorem extractResult_eq_pyMax_inRange (values : List Nat) (min_expected max_expected : Nat)
    (h : (inRangeValues values min_expected max_expected).isEmpty = false) :
    extractResult values min_expected max_expected =
      pyMax (inRangeValues values min_expected max_expected) := by
  unfold extractResult
  rw [if_neg (by simp [h])]
  exact pyMax_filter_half _ h

/-- C10: on every input, `parse_dollar_strict` agrees with the variant that
omits the discard-below-half-of-max step, and whenever some extracted value
lies in the expected range the pre-classification result is exactly the
maximum of the in-range values. -/
theorem parse_dollar_strict_filter_redundant :
    ∀ (text : String) (min_expected max_expected min_valid max_valid : Nat),
      parse_dollar_strict text min_expected max_expected min_valid max_valid =
        parse_dollar_strict_nofilter text min_expected max_expected min_valid max_valid ∧
      ((inRangeValues (findAllNums text) min_expected max_expected).isEmpty = false →
        extractResult (findAllNums text) min_expected max_expected =
          pyMax (inRangeValues (findAllNums text) min_expected max_expected)) := by
  intro text me Me mv Mv
  have hext : extractResult (findAllNums text) me Me =
      if (inRangeValues (findAllNums text) me Me).isEmpty then pyMax (findAllNums text)
      else pyMax (inRangeValues (findAllNums text) me Me) := by
    cases he : (inRangeValues (findAllNums text) me Me).isEmpty
    · rw [if_neg (by simp [he])]
      exact extractResult_eq_pyMax_inRange _ _ _ he
    · unfold extractResult
      rw [if_pos (by simp [he]), if_pos (by simp [he])]
  constructor
  · rw [parse_dollar_strict_eq, parse_dollar_strict_nofilter_eq, hext]
  · intro h
    exact extractResult_eq_pyMax_inRange _ _ _ h

/-- Witness for the C10 theorem at a concrete input with an in-range
value. -/
theorem parse_dollar_strict_filter_redundant_witness :
    extractResult (findAllNums "$8,500") 2000 20000 =
      pyMax (inRangeValues (findAllNums "$8,500") 2000 20000) :=
  (parse_dollar_strict_filter_redundant "$8,500" 2000 20000 2000 200000).2 (by decide)

/-! ### Driver and fetcher theorems -/

/-- C4 counterexample: a generator-produced request file for a hosted claude
model is excluded by the Batch Driver's name patterns, yet the Weight
Fetcher (which only skips names that start with gpt) still issues a weight
download for it. -/
theorem fetcher_hosted_counterexample :
    hostedApiName "housing_prompt_v2_claude-3-5-sonnet-20241022.jsonl" = true ∧
    fetchStep "housing_prompt_v2_claude-3-5-sonnet-20241022.jsonl"
        "claude-3-5-sonnet-20241022" =
      .downloaded "claude-3-5-sonnet-20241022" := by
  constructor
  · decide
  · decide

/-- C4 (amended): the Weight Fetcher's exclusion is exactly the gpt name
prefix: gpt-prefixed files are skipped with no download, and every download
it issues is for a non-gpt-prefixed file with a usable model string. -/
theorem fetchStep_spec :
    ∀ (filename modelStr : String),
      (strStartsWith filename "gpt" = true → fetchStep filename modelStr = .skippedGpt) ∧
      (∀ m, fetchStep filename modelStr = .downloaded m →
        strStartsWith filename "gpt" = false ∧ m = modelStr ∧
        modelStr ≠ "" ∧ modelStr ≠ "null") := by
  intro filename modelStr
  constructor
  · intro h
    simp [fetchStep, h]
  · intro m h
    unfold fetchStep at h
    split at h
    · exact absurd h (by simp)
    · split at h
      · exact absurd h (by simp)
      · rename_i h1 h2
        cases h
        refine ⟨by simpa using h1, rfl, ?_, ?_⟩ <;> tauto

/-- Witness for the C4 amended theorem: a gpt-prefixed file gets no
download. -/
theorem fetchStep_spec_witness :
    fetchStep "gpt-4o-mini.jsonl" "gpt-4o-mini-2024-07-18" = .skippedGpt :=
  (fetchStep_spec "gpt-4o-mini.jsonl" "gpt-4o-mini-2024-07-18").1 (by decide)

/-- C5: with the replace flag unset, a file whose plain or compressed output
artifact exists is never run, and after a full driver pass every file's
output artifact exists whenever it was invoked, so a second identical run
invokes nothing. -/
theorem driverStep_exists_not_invoked {fl : DriverFlags} {f : DriverFile}
    (hr : fl.replace = false) (hb : (f.outputExists || f.zipExists) = true) :
    ∀ m, driverStep fl f ≠ .invoked m := by
  intro m
  unfold driverStep
  split_ifs with h1 h2 h3 h4 h5 <;> simp_all

theorem stepInvokes_eq_false_iff {fl : DriverFlags} {f : DriverFile} :
    stepInvokes fl f = false ↔ ∀ m, driverStep fl f ≠ .invoked m := by
  unfold stepInvokes
  cases h : driverStep fl f <;> simp

theorem driver_skip_on_exists :
    ∀ (fl : DriverFlags) (f : DriverFile),
      fl.replace = false →
      ((f.outputExists = true ∨ f.zipExists = true) → stepInvokes fl f = false) ∧
      stepInvokes fl (afterDriverRun fl f) = false := by
  intro fl f hr
  constructor
  · intro hex
    apply stepInvokes_eq_false_iff.mpr
    apply driverStep_exists_not_invoked hr
    rcases hex with h | h <;> simp [h]
  · cases hinv : stepInvokes fl f
    · have hf' : afterDriverRun fl f = f := by
        unfold afterDriverRun
        rw [hinv]
        simp
      rw [hf', hinv]
    · apply stepInvokes_eq_false_iff.mpr
      apply driverStep_exists_not_invoked hr
      unfold afterDriverRun
      simp [hinv]

/-- Witness for C5 at a concrete file with an existing output. -/
theorem driver_skip_on_exists_witness :
    stepInvokes ⟨false, false⟩ ⟨"housing_prompt_v2_gemma-2-2b-it.jsonl", "google/gemma-2-2b-it", true, false⟩ = false :=
  (driver_skip_on_exists ⟨false, false⟩
    ⟨"housing_prompt_v2_gemma-2-2b-it.jsonl", "google/gemma-2-2b-it", true, false⟩ rfl).1
    (Or.inl rfl)

/-- C7 counterexample: a request file whose name matches the driver's gpt
pattern and whose first-line model field is null is dropped by the name
check before model extraction, so the driver never logs the model warning
for it, contradicting the claim for that file. -/
theorem driver_null_model_counterexample :
    gptNullFile.modelStr = "null" ∧
    driverStep ⟨false, false⟩ gptNullFile ≠ .badModelWarned ∧
    driverStep ⟨false, false⟩ gptNullFile = .skippedHosted := by
  refine ⟨rfl, ?_, ?_⟩
  · decide
  · decide

/-- C7 (amended): for every request file not excluded by the hosted name
patterns whose extracted model string is missing or null, the driver warns,
does not invoke the subprocess for it, and the run continues: the
invocations of a run containing the file are exactly those of the
surrounding files. -/
theorem driver_null_model_skips :
    ∀ (fl : DriverFlags) (f : DriverFile),
      (f.modelStr = "" ∨ f.modelStr = "null") →
      hostedApiName f.filename = false →
      driverStep fl f = .badModelWarned ∧
      ∀ pre post, driverInvocations fl (pre ++ f :: post) =
        driverInvocations fl pre ++ driverInvocations fl post := by
  intro fl f hm hh
  have hg : strContains f.filename "gpt" = false := by
    have := congrArg (fun b => b) hh
    simp [hostedApiName] at hh
    exact hh.1
  have hc : strContains f.filename "claude" = false := by
    simp [hostedApiName] at hh
    exact hh.2
  have hstep : driverStep fl f = .badModelWarned := by
    unfold driverStep
    rw [if_neg (by simp [hg]), if_neg (by simp [hc]), if_pos hm]
  refine ⟨hstep, ?_⟩
  intro pre post
  unfold driverInvocations
  rw [List.filterMap_append, List.filterMap_cons]
  rw [hstep]

/-- Witness for the C7 amended theorem at a concrete non-hosted file with a
null model string. -/
theorem driver_null_model_skips_witness :
    driverStep ⟨false, false⟩ ⟨"housing_prompt_v2_broken.jsonl", "null", false, false⟩ =
      .badModelWarned :=
  (driver_null_model_skips ⟨false, false⟩
    ⟨"housing_prompt_v2_broken.jsonl", "null", false, false⟩ (Or.inr rfl) (by decide)).1

/-! ### Request file writer theorems -/

theorem string_append_right_ne (pref : String) {s t : String} (h : s ≠ t) :
    pref ++ s ≠ pref ++ t := by
  intro he
  apply h
  have hd : pref.data ++ s.data = pref.data ++ t.data := by
    have := congrArg String.data he
    simpa [String.data_append] using this
  have hdata : s.data = t.data := List.append_cancel_left hd
  cases s with
  | mk ds =>
    cases t with
    | mk dt => exact congrArg String.mk hdata

/-- C6 counterexample: with a seed table of 50001 rows the writer produces a
request file holding 50001 records; no cap is applied. -/
theorem writeRequestFiles_cap_counterexample :
    (writeRequestFiles "housing_prompt_v2" modelsList (List.replicate 50001 0)).head? =
      some (requestFileName "housing_prompt_v2" "gpt-3.5-turbo-0125", 50001) ∧
    50000 < 50001 := by
  constructor
  · simp only [writeRequestFiles, modelsList, List.map_cons, List.head?_cons,
      List.length_replicate]
  · decide

/-- C6 (amended): the generator writes exactly one request file per
configured model, with pairwise distinct file names, each holding exactly
one record per seed row; hence the files respect the 50000-record cap
exactly when the seed table has at most 50000 rows. -/
theorem writeRequestFiles_spec :
    ∀ (pref : String) (df : List Nat),
      (writeRequestFiles pref modelsList df).length = modelsList.length ∧
      (∀ p ∈ writeRequestFiles pref modelsList df, p.2 = df.length) ∧
      ((writeRequestFiles pref modelsList df).map Prod.fst).Nodup ∧
      (df.length ≤ 50000 → ∀ p ∈ writeRequestFiles pref modelsList df, p.2 ≤ 50000) := by
  intro pref df
  refine ⟨by simp [writeRequestFiles], ?_, ?_, ?_⟩
  · intro p hp
    rcases List.mem_map.mp hp with ⟨v, _, rfl⟩
    rfl
  · have hmap : (writeRequestFiles pref modelsList df).map Prod.fst =
        (modelsList.map (fun v => "_" ++ lastComponent v ++ ".jsonl")).map
          (fun s => pref ++ s) := by
      simp [writeRequestFiles, requestFileName, Function.comp]
    rw [hmap]
    apply List.Nodup.map
    · intro s t hst
      by_contra hne
      exact string_append_right_ne pref hne hst
    · decide
  · intro hle p hp
    rcases List.mem_map.mp hp with ⟨v, _, rfl⟩
    simpa using hle

/-- Witness for the C6 amended theorem at a concrete within-cap seed
size. -/
theorem writeRequestFiles_spec_witness :
    ∀ p ∈ writeRequestFiles "housing_prompt_v2" modelsList [0, 1, 2], p.2 ≤ 50000 :=
  (writeRequestFiles_spec "housing_prompt_v2" [0, 1, 2]).2.2.2 (by decide)

/-! ### Merge invariant theorems -/

theorem completeResults_eq_product (N M : Nat) :
    completeResults N M = (List.range N) ×ˢ (List.range M) := rfl

theorem completeResults_length (N M : Nat) : (completeResults N M).length = N * M := by
  rw [completeResults_eq_product, List.length_product, List.length_range, List.length_range]

theorem completeResults_nodup (N M : Nat) : (completeResults N M).Nodup := by
  rw [completeResults_eq_product]
  exact (List.nodup_range N).product (List.nodup_range M)

theorem mem_completeResults {N M t m : Nat} :
    (t, m) ∈ completeResults N M ↔ t < N ∧ m < M := by
  rw [completeResults_eq_product]
  simp [List.mem_product]

theorem mem_missingOneResults {N M : Nat} {x : Nat × Nat} :
    x ∈ missingOneResults N M ↔ x ∈ completeResults N M ∧ x ≠ (0, 0) := by
  unfold missingOneResults
  rw [List.mem_filter]
  simp

theorem missingOneResults_length {N M : Nat} (hN : 1 ≤ N) (hM : 1 ≤ M) :
    (missingOneResults N M).length + 1 = N * M := by
  unfold missingOneResults
  have hmem : ((0, 0) : Nat × Nat) ∈ completeResults N M :=
    mem_completeResults.mpr ⟨hN, hM⟩
  have hfil : (completeResults N M).filter (fun r => decide (r ≠ (0, 0))) =
      (completeResults N M).erase (0, 0) := by
    rw [(completeResults_nodup N M).erase_eq_filter]
    apply List.filter_congr
    intro x _
    rw [Bool.eq_iff_iff]
    by_cases hx : x = ((0, 0) : Nat × Nat) <;> simp [hx, bne]
  rw [hfil]
  have hlen : ((completeResults N M).erase ((0, 0) : Nat × Nat)).length =
      (completeResults N M).length - 1 := List.length_erase_of_mem hmem
  have hge : 1 ≤ (completeResults N M).length :=
    List.length_pos.mpr (List.ne_nil_of_mem hmem)
  rw [hlen, completeResults_length]
  rw [completeResults_length] at hge
  omega

theorem innerMerge_of_mem {results : List (Nat × Nat)} {seed : List Nat}
    (hnd : seed.Nodup) (hmem : ∀ r ∈ results, r.1 ∈ seed) :
    innerMerge results seed = results.map (fun r => (r, r.1)) := by
  unfold innerMerge
  induction results with
  | nil => rfl
  | cons r rs ih =>
    rw [List.flatMap_cons]
    have h1 : seed.filter (· = r.1) = [r.1] := by
      rw [List.filter_eq, List.count_eq_one_of_mem hnd (hmem r (List.mem_cons_self r rs))]
      rfl
    rw [h1, ih (fun x hx => hmem x (List.mem_cons_of_mem r hx))]
    rfl

theorem nunique_eq_card {α : Type} [DecidableEq α] (l : List α) :
    nunique l = l.toFinset.card := (List.card_toFinset l).symm

/-- C2 counterexample: with one task and two models, dropping the single
task's answer from one of the models leaves a merged table that still
passes the row-count assertion, because the missing model also disappears
from the distinct model count; so a fixture missing one model's result for
one task does not always make the check fail. -/
theorem mergeCheck_missing_counterexample :
    mergeCheck (innerMerge (missingOneResults 1 2) (seedIds 1)) = some true := by decide

/-- C2 (amended): on complete N-by-M fixtures (N, M at least 1) the merged
row count equals distinct-custom-id count times distinct-model count and
the assertion passes; and whenever both N and M are at least 2, removing
one model's result for one task makes the assertion fail (surfaced as an
error, not ignored). -/
theorem mergeCheck_spec :
    ∀ N M : Nat, 1 ≤ N → 1 ≤ M →
      mergeCheck (innerMerge (completeResults N M) (seedIds N)) = some true ∧
      (2 ≤ N → 2 ≤ M →
        mergeCheck (innerMerge (missingOneResults N M) (seedIds N)) = some false) := by
  intro N M hN hM
  have hseed : (seedIds N).Nodup := List.nodup_range N
  constructor
  · have hmem : ∀ r ∈ completeResults N M, r.1 ∈ seedIds N := by
      rintro ⟨t, m⟩ hr
      exact List.mem_range.mpr (mem_completeResults.mp hr).1
    rw [innerMerge_of_mem hseed hmem]
    have hfst : (((completeResults N M).map (fun r => (r, r.1))).map (fun p => p.1.1)) =
        (completeResults N M).map Prod.fst := by
      rw [List.map_map]
      rfl
    have hsnd : (((completeResults N M).map (fun r => (r, r.1))).map (fun p => p.1.2)) =
        (completeResults N M).map Prod.snd := by
      rw [List.map_map]
      rfl
    have hC : nunique (((completeResults N M).map (fun r => (r, r.1))).map (fun p => p.1.1)) = N := by
      rw [hfst, nunique_eq_card]
      have : ((completeResults N M).map Prod.fst).toFinset = Finset.range N := by
        ext a
        simp only [List.mem_toFinset, List.mem_map, Finset.mem_range]
        constructor
        · rintro ⟨⟨t, m⟩, hmem2, rfl⟩
          exact (mem_completeResults.mp hmem2).1
        · intro ha
          exact ⟨(a, 0), mem_completeResults.mpr ⟨ha, hM⟩, rfl⟩
      rw [this, Finset.card_range]
    have hMcnt : nunique (((completeResults N M).map (fun r => (r, r.1))).map (fun p => p.1.2)) = M := by
      rw [hsnd, nunique_eq_card]
      have : ((completeResults N M).map Prod.snd).toFinset = Finset.range M := by
        ext a
        simp only [List.mem_toFinset, List.mem_map, Finset.mem_range]
        constructor
        · rintro ⟨⟨t, m⟩, hmem2, rfl⟩
          exact (mem_completeResults.mp hmem2).2
        · intro ha
          exact ⟨(0, a), mem_completeResults.mpr ⟨hN, ha⟩, rfl⟩
      rw [this, Finset.card_range]
    unfold mergeCheck
    rw [hC, hMcnt, if_neg (by omega)]
    have hlen : ((completeResults N M).map (fun r => (r, r.1))).length = N * M := by
      rw [List.length_map, completeResults_length]
    rw [hlen]
    simp
  · intro hN2 hM2
    have hmem : ∀ r ∈ missingOneResults N M, r.1 ∈ seedIds N := by
      rintro ⟨t, m⟩ hr
      exact List.mem_range.mpr (mem_completeResults.mp (mem_missingOneResults.mp hr).1).1
    rw [innerMerge_of_mem hseed hmem]
    have hC : nunique (((missingOneResults N M).map (fun r => (r, r.1))).map (fun p => p.1.1)) = N := by
      rw [List.map_map, nunique_eq_card]
      have : ((missingOneResults N M).map ((fun p => p.1.1) ∘ fun r => (r, r.1))).toFinset =
          Finset.range N := by
        ext a
        simp only [List.mem_toFinset, List.mem_map, Finset.mem_range, Function.comp]
        constructor
        · rintro ⟨⟨t, m⟩, hmem2, rfl⟩
          exact (mem_completeResults.mp (mem_missingOneResults.mp hmem2).1).1
        · intro ha
          by_cases ha0 : a = 0
          · refine ⟨(a, 1), mem_missingOneResults.mpr ⟨mem_completeResults.mpr ⟨ha, by omega⟩, ?_⟩, rfl⟩
            simp [ha0]
          · refine ⟨(a, 0), mem_missingOneResults.mpr ⟨mem_completeResults.mpr ⟨ha, by omega⟩, ?_⟩, rfl⟩
            simp [ha0]
      rw [this, Finset.card_range]
    have hMcnt : nunique (((missingOneResults N M).map (fun r => (r, r.1))).map (fun p => p.1.2)) = M := by
      rw [List.map_map, nunique_eq_card]
      have : ((missingOneResults N M).map ((fun p => p.1.2) ∘ fun r => (r, r.1))).toFinset =
          Finset.range M := by
        ext a
        simp only [List.mem_toFinset, List.mem_map, Finset.mem_range, Function.comp]
        constructor
        · rintro ⟨⟨t, m⟩, hmem2, rfl⟩
          exact (mem_completeResults.mp (mem_missingOneResults.mp hmem2).1).2
        · intro ha
          by_cases ha0 : a = 0
          · refine ⟨(1, a), mem_missingOneResults.mpr ⟨mem_completeResults.mpr ⟨by omega, ha⟩, ?_⟩, rfl⟩
            simp [ha0]
          · refine ⟨(0, a), mem_missingOneResults.mpr ⟨mem_completeResults.mpr ⟨by omega, ha⟩, ?_⟩, rfl⟩
            simp [ha0]
      rw [this, Finset.card_range]
    unfold mergeCheck
    rw [hC, hMcnt, if_neg (by omega)]
    have hlen1 : (missingOneResults N M).length + 1 = N * M :=
      missingOneResults_length (by omega) (by omega)
    have hne : ¬(missingOneResults N M).length = N * M := by omega
    simp [hne]

/-- Witness for the C2 amended theorem at the smallest nondegenerate
fixture. -/
theorem mergeCheck_spec_witness :
    mergeCheck (innerMerge (completeResults 2 2) (seedIds 2)) = some true ∧
    mergeCheck (innerMerge (missingOneResults 2 2) (seedIds 2)) = some false :=
  ⟨(mergeCheck_spec 2 2 (by decide) (by decide)).1,
   (mergeCheck_spec 2 2 (by decide) (by decide)).2 (by decide) (by decide)⟩

/-! ### Generator group-count machinery -/

theorem sum_map_const {α : Type} (l : List α) (k : Nat) :
    (l.map (fun _ => k)).sum = l.length * k := by
  induction l with
  | nil => simp
  | cons a t ih =>
    rw [List.map_cons, List.sum_cons, ih, List.length_cons, Nat.succ_mul]
    exact Nat.add_comm k (t.length * k)

theorem sum_map_add_distrib {α : Type} (l : List α) (f g : α → Nat) :
    (l.map (fun a => f a + g a)).sum = (l.map f).sum + (l.map g).sum := by
  induction l with
  | nil => rfl
  | cons a t ih =>
    simp only [List.map_cons, List.sum_cons, ih]
    omega

theorem sum_map_indicator_one {κ : Type} [DecidableEq κ] (a : κ) :
    ∀ K : List κ, K.Nodup → a ∈ K →
      (K.map (fun k => if a = k then 1 else 0)).sum = 1 := by
  intro K
  induction K with
  | nil => intro _ h; cases h
  | cons k t ih =>
    intro hnd ha
    rcases List.mem_cons.mp ha with rfl | hat
    · have hnotin : a ∉ t := (List.nodup_cons.mp hnd).1
      have hz : ∀ k' ∈ t, (if a = k' then 1 else 0) = 0 := by
        intro k' hk'
        rw [if_neg]
        rintro rfl
        exact hnotin hk'
      rw [List.map_cons, List.sum_cons, if_pos rfl, List.map_congr_left hz,
        sum_map_const]
      omega
    · have hk : a ≠ k := by
        rintro rfl
        exact (List.nodup_cons.mp hnd).1 hat
      rw [List.map_cons, List.sum_cons, if_neg hk,
        ih (List.nodup_cons.mp hnd).2 hat]

theorem countP_partition {α κ : Type} [DecidableEq κ] (key : α → κ) (K : List κ)
    (hnd : K.Nodup) (p : α → Bool) :
    ∀ l : List α, (∀ x ∈ l, p x = true → key x ∈ K) →
      l.countP p =
        (K.map (fun k => l.countP (fun x => p x && decide (key x = k)))).sum := by
  intro l
  induction l with
  | nil =>
    intro _
    simp only [List.countP_nil]
    rw [sum_map_const]
    omega
  | cons x t ih =>
    intro hmem
    have hmem' : ∀ y ∈ t, p y = true → key y ∈ K :=
      fun y hy hpy => hmem y (List.mem_cons_of_mem x hy) hpy
    cases hp : p x
    · have hstep : ∀ k ∈ K, (x :: t).countP (fun y => p y && decide (key y = k)) =
          t.countP (fun y => p y && decide (key y = k)) := by
        intro k _
        rw [List.countP_cons]
        simp [hp]
      rw [List.countP_cons, List.map_congr_left hstep, ih hmem']
      simp [hp]
    · have hkey : key x ∈ K := hmem x (List.mem_cons_self x t) hp
      have hstep : ∀ k ∈ K, (x :: t).countP (fun y => p y && decide (key y = k)) =
          t.countP (fun y => p y && decide (key y = k)) + (if key x = k then 1 else 0) := by
        intro k _
        rw [List.countP_cons]
        congr 1
        simp [hp]
      rw [List.countP_cons, List.map_congr_left hstep, sum_map_add_distrib,
        ih hmem', sum_map_indicator_one (key x) K hnd hkey]
      simp [hp]

theorem countP_flatMap {α β : Type} (p : β → Bool) (l : List α) (f : α → List β) :
    (l.flatMap f).countP p = (l.map (fun a => (f a).countP p)).sum := by
  induction l with
  | nil => rfl
  | cons a t ih => simp [List.flatMap_cons, List.countP_append, ih]

theorem countP_enumFrom {α : Type} (l : List α) (p : α → Bool) :
    ∀ n, (l.enumFrom n).countP (fun x => p x.2) = l.countP p := by
  induction l with
  | nil => intro n; rfl
  | cons a t ih =>
    intro n
    rw [List.enumFrom_cons, List.countP_cons, List.countP_cons, ih]

theorem sum_map_boolScale {α : Type} (l : List α) (b : α → Bool) (k : Nat) :
    (l.map (fun a => if b a then k else 0)).sum = k * l.countP b := by
  induction l with
  | nil => simp
  | cons a t ih =>
    rw [List.map_cons, List.sum_cons, List.countP_cons, ih]
    cases hb : b a
    · simp [hb]
    · simp only [hb, if_true]
      ring

theorem countP_tt {α : Type} (l : List α) : l.countP (fun _ => true) = l.length := by
  simp

theorem countP_eq_one_of_nodup_mem {s : List String} (hnd : s.Nodup) {x : String}
    (hx : x ∈ s) : s.countP (fun y => decide (y = x)) = 1 := by
  have h1 : s.countP (fun y => decide (y = x)) = s.count x := by
    apply List.countP_congr
    intro y _
    simp [List.count]
  rw [h1]
  exact List.count_eq_one_of_mem hnd hx

theorem rowList_countP_factor (apps : List Applicant) (p : TaskRow → Bool)
    (bA : Applicant → Bool) (bJ bS : String → Bool)
    (hfac : ∀ (i : Nat) (a : Applicant) (j s : String) (rep : Nat),
      p (mkRow i (a, j, s, rep)) = (bA a && bJ j && bS s)) :
    (rowList apps).countP p =
      apps.countP bA * (occupation.countP bJ * (living_status.countP bS * 3)) := by
  unfold rowList
  rw [List.countP_map, List.enum_eq_enumFrom]
  have h1 : ((taskQuads apps).enumFrom 0).countP
        (p ∘ fun pr : Nat × (Applicant × String × String × Nat) => mkRow pr.1 pr.2) =
      ((taskQuads apps).enumFrom 0).countP
        (fun pr => bA pr.2.1 && bJ pr.2.2.1 && bS pr.2.2.2.1) := by
    apply List.countP_congr
    intro pr _
    have := hfac pr.1 pr.2.1 pr.2.2.1 pr.2.2.2.1 pr.2.2.2.2
    rw [show (p ∘ fun pr : Nat × (Applicant × String × String × Nat) => mkRow pr.1 pr.2) pr =
      (bA pr.2.1 && bJ pr.2.2.1 && bS pr.2.2.2.1) from this]
  rw [h1, countP_enumFrom (taskQuads apps)
    (fun q => bA q.1 && bJ q.2.1 && bS q.2.2.1) 0]
  unfold taskQuads
  rw [countP_flatMap]
  have hinner : ∀ a : Applicant,
      ((occupation.flatMap (fun j => living_status.flatMap (fun s =>
          (List.range 3).map (fun rep => (a, j, s, rep))))).countP
        (fun q => bA q.1 && bJ q.2.1 && bS q.2.2.1)) =
      if bA a then occupation.countP bJ * (living_status.countP bS * 3) else 0 := by
    intro a
    rw [countP_flatMap]
    have hj : ∀ j : String,
        ((living_status.flatMap (fun s =>
            (List.range 3).map (fun rep => (a, j, s, rep)))).countP
          (fun q => bA q.1 && bJ q.2.1 && bS q.2.2.1)) =
        if bA a && bJ j then living_status.countP bS * 3 else 0 := by
      intro j
      rw [countP_flatMap]
      have hs : ∀ s : String,
          (((List.range 3).map (fun rep => (a, j, s, rep))).countP
            (fun q => bA q.1 && bJ q.2.1 && bS q.2.2.1)) =
          if bA a && bJ j && bS s then 3 else 0 := by
        intro s
        rw [List.countP_map]
        cases hc : bA a && bJ j && bS s
        · rw [if_neg (by simp)]
          have h3 : ((fun q : Applicant × String × String × Nat =>
              bA q.1 && bJ q.2.1 && bS q.2.2.1) ∘ fun rep : Nat => (a, j, s, rep)) =
              fun _ : Nat => false := by
            funext rep
            exact hc
          rw [h3]
          simp
        · rw [if_pos (by simp)]
          have h3 : ((fun q : Applicant × String × String × Nat =>
              bA q.1 && bJ q.2.1 && bS q.2.2.1) ∘ fun rep : Nat => (a, j, s, rep)) =
              fun _ : Nat => true := by
            funext rep
            exact hc
          rw [h3, countP_tt, List.length_range]
      rw [List.map_congr_left (fun s _ => hs s)]
      cases hc : bA a && bJ j
      · have hzero : ∀ s ∈ living_status, (if (false && bS s) = true then 3 else 0) = 0 := by
          intro s _
          simp
        rw [List.map_congr_left hzero, sum_map_const]
        simp
      · have hsame : ∀ s ∈ living_status,
            (if (true && bS s) = true then 3 else 0) = (if bS s then 3 else 0) := by
          intro s _
          simp
        rw [List.map_congr_left hsame, sum_map_boolScale]
        simp [Nat.mul_comm]
    rw [List.map_congr_left (fun j _ => hj j)]
    cases hca : bA a
    · have hzero : ∀ j ∈ occupation,
          (if (false && bJ j) = true then living_status.countP bS * 3 else 0) = 0 := by
        intro j _
        simp
      rw [List.map_congr_left hzero, sum_map_const]
      simp
    · have hsame : ∀ j ∈ occupation,
          (if (true && bJ j) = true then living_status.countP bS * 3 else 0) =
            (if bJ j then living_status.countP bS * 3 else 0) := by
        intro j _
        simp
      rw [List.map_congr_left hsame, sum_map_boolScale]
      simp [Nat.mul_comm]
  rw [List.map_congr_left (fun a _ => hinner a), sum_map_boolScale]
  exact Nat.mul_comm _ _

theorem groupCount_eval {κ : Type} [DecidableEq κ] (apps : List Applicant)
    (key : TaskRow → κ) (k : κ)
    (bA : Applicant → Bool) (bJ bS : String → Bool)
    (hfac : ∀ (i : Nat) (a : Applicant) (j s : String) (rep : Nat),
      decide (key (mkRow i (a, j, s, rep)) = k) = (bA a && bJ j && bS s)) :
    groupCount (rowList apps) key k =
      apps.countP bA * (occupation.countP bJ * (living_status.countP bS * 3)) := by
  unfold groupCount
  rw [← List.countP_eq_length_filter]
  exact rowList_countP_factor apps _ bA bJ bS hfac

theorem snd_mem_of_mem_enumFrom {α : Type} {pr : Nat × α} :
    ∀ (l : List α) (n : Nat), pr ∈ l.enumFrom n → pr.2 ∈ l := by
  intro l
  induction l with
  | nil => intro n h; cases h
  | cons a t ih =>
    intro n h
    rw [List.enumFrom_cons] at h
    rcases List.mem_cons.mp h with rfl | h2
    · exact List.mem_cons_self a t
    · exact List.mem_cons_of_mem a (ih (n + 1) h2)

theorem mem_rowList_decompose {apps : List Applicant} {t : TaskRow}
    (h : t ∈ rowList apps) :
    ∃ a ∈ apps, ∃ j ∈ occupation, ∃ s ∈ living_status,
      t.gender = a.gender ∧ t.race = a.race ∧ t.occ = j ∧ t.status = s := by
  unfold rowList at h
  rcases List.mem_map.mp h with ⟨pr, hpr, rfl⟩
  rw [List.enum_eq_enumFrom] at hpr
  have hq : pr.2 ∈ taskQuads apps := snd_mem_of_mem_enumFrom _ 0 hpr
  unfold taskQuads at hq
  rcases List.mem_flatMap.mp hq with ⟨a, ha, hq2⟩
  rcases List.mem_flatMap.mp hq2 with ⟨j, hj, hq3⟩
  rcases List.mem_flatMap.mp hq3 with ⟨s, hs, hq4⟩
  rcases List.mem_map.mp hq4 with ⟨rep, _, heq⟩
  refine ⟨a, ha, j, hj, s, hs, ?_⟩
  rw [← heq]
  exact ⟨rfl, rfl, rfl, rfl⟩

theorem nunique_eq_one_of_all_eq {l : List Nat} (v : Nat) (hv : v ∈ l)
    (h : ∀ x ∈ l, x = v) : nunique l = 1 := by
  rw [nunique_eq_card]
  have : l.toFinset = {v} := by
    ext a
    simp only [List.mem_toFinset, Finset.mem_singleton]
    exact ⟨fun ha => h a ha, fun ha => ha ▸ hv⟩
  rw [this, Finset.card_singleton]

theorem groupCountsUniform_of_const {κ : Type} [DecidableEq κ] (rows : List TaskRow)
    (key : TaskRow → κ) (V : Nat) (hne : rows ≠ [])
    (h : ∀ k ∈ (rows.map key).dedup, groupCount rows key k = V) :
    groupCountsUniform rows key := by
  obtain ⟨t, ht⟩ := List.exists_mem_of_ne_nil rows hne
  have hk : key t ∈ (rows.map key).dedup :=
    List.mem_dedup.mpr (List.mem_map_of_mem key ht)
  have hmemV : V ∈ groupCounts rows key := by
    rw [← h (key t) hk]
    exact List.mem_map_of_mem _ hk
  unfold groupCountsUniform
  apply nunique_eq_one_of_all_eq V hmemV
  intro x hx
  rcases List.mem_map.mp hx with ⟨k, hkd, rfl⟩
  exact h k hkd

/-- C3: on balanced input (the applicants realize every gender-race cell of
a full product of genders G and races R with one common positive cell
count), the generated task set has identical group counts across all value
combinations of every pair of the four factors; in particular the four
notebook assertions (the quadruple grouping and the gender-race,
race-occupation, occupation-living-status groupings) hold, so generation
proceeds past them to the request files. -/
theorem generator_group_assertions :
    ∀ (apps : List Applicant) (G R : List String) (c : Nat),
      1 ≤ c → G ≠ [] → R ≠ [] → G.Nodup → R.Nodup →
      (∀ a ∈ apps, a.gender ∈ G ∧ a.race ∈ R) →
      (∀ g ∈ G, ∀ r ∈ R,
        apps.countP (fun a => decide (a.gender = g) && decide (a.race = r)) = c) →
      groupCountsUniform (rowList apps) (fun t => (t.gender, t.race, t.occ, t.status)) ∧
      groupCountsUniform (rowList apps) (fun t => (t.gender, t.race)) ∧
      groupCountsUniform (rowList apps) (fun t => (t.race, t.occ)) ∧
      groupCountsUniform (rowList apps) (fun t => (t.occ, t.status)) ∧
      groupCountsUniform (rowList apps) (fun t => (t.gender, t.occ)) ∧
      groupCountsUniform (rowList apps) (fun t => (t.gender, t.status)) ∧
      groupCountsUniform (rowList apps) (fun t => (t.race, t.status)) := by
  intro apps G R c hc hG hR hGnd hRnd hmemA hcell
  have hgender : ∀ g, g ∈ G → apps.countP (fun a => decide (a.gender = g)) = R.length * c := by
    intro g hg
    rw [countP_partition (fun a => a.race) R hRnd _ apps (fun a ha _ => (hmemA a ha).2)]
    rw [List.map_congr_left (fun r hr => hcell g hg r hr), sum_map_const]
  have hrace : ∀ r, r ∈ R → apps.countP (fun a => decide (a.race = r)) = G.length * c := by
    intro r hr
    rw [countP_partition (fun a => a.gender) G hGnd _ apps (fun a ha _ => (hmemA a ha).1)]
    have hcongr : ∀ g ∈ G,
        apps.countP (fun x => decide (x.race = r) && decide (x.gender = g)) = c := by
      intro g hg
      rw [← hcell g hg r hr]
      apply List.countP_congr
      intro a _
      constructor
      · intro h
        simp only [Bool.and_eq_true, decide_eq_true_eq] at h ⊢
        exact ⟨h.2, h.1⟩
      · intro h
        simp only [Bool.and_eq_true, decide_eq_true_eq] at h ⊢
        exact ⟨h.2, h.1⟩
    rw [List.map_congr_left (fun g hg => hcongr g hg), sum_map_const]
  have happs : ∃ a, a ∈ apps := by
    obtain ⟨g, hg⟩ := List.exists_mem_of_ne_nil G hG
    obtain ⟨r, hr⟩ := List.exists_mem_of_ne_nil R hR
    have hx := hcell g hg r hr
    have hpos : 0 < apps.countP (fun a => decide (a.gender = g) && decide (a.race = r)) := by
      omega
    rcases List.countP_pos_iff.mp hpos with ⟨a, ha, _⟩
    exact ⟨a, ha⟩
  have occN : occupation.Nodup := by decide
  have lsN : living_status.Nodup := by decide
  have hrows : rowList apps ≠ [] := by
    obtain ⟨a, ha⟩ := happs
    have hlen := rowList_countP_factor apps (fun _ => true) (fun _ => true) (fun _ => true)
      (fun _ => true) (fun _ _ _ _ _ => rfl)
    rw [countP_tt, countP_tt, countP_tt, countP_tt] at hlen
    have h198 : occupation.length * (living_status.length * 3) = 198 := by decide
    rw [h198] at hlen
    have hpos : 0 < apps.length := List.length_pos.mpr (List.ne_nil_of_mem ha)
    have hpos2 : 0 < (rowList apps).length := by
      rw [hlen]
      omega
    exact List.length_pos.mp hpos2
  refine ⟨?_, ?_, ?_, ?_, ?_, ?_, ?_⟩
  · apply groupCountsUniform_of_const _ _ (c * (1 * (1 * 3))) hrows
    intro k hk
    rcases List.mem_map.mp (List.mem_dedup.mp hk) with ⟨t, ht, hkt⟩
    obtain ⟨a, ha, j, hj, s, hs, hg, hr, ho, hst⟩ := mem_rowList_decompose ht
    have hfac : ∀ (i : Nat) (a' : Applicant) (j' s' : String) (rep : Nat),
        decide ((fun t => (t.gender, t.race, t.occ, t.status)) (mkRow i (a', j', s', rep)) = k) =
          ((decide (a'.gender = k.1) && decide (a'.race = k.2.1)) &&
            decide (j' = k.2.2.1) && decide (s' = k.2.2.2)) := by
      intro i a' j' s' rep
      by_cases h1 : a'.gender = k.1 <;> by_cases h2 : a'.race = k.2.1 <;>
        by_cases h3 : j' = k.2.2.1 <;> by_cases h4 : s' = k.2.2.2 <;>
        simp [mkRow, Prod.ext_iff, h1, h2, h3, h4]
    rw [groupCount_eval apps _ k
      (fun a' => decide (a'.gender = k.1) && decide (a'.race = k.2.1))
      (fun j' => decide (j' = k.2.2.1)) (fun s' => decide (s' = k.2.2.2)) hfac]
    have hk1 : k.1 = a.gender := by rw [← hkt]; exact hg
    have hk2 : k.2.1 = a.race := by rw [← hkt]; exact hr
    have hk3 : k.2.2.1 = j := by rw [← hkt]; exact ho
    have hk4 : k.2.2.2 = s := by rw [← hkt]; exact hst
    have hbA : apps.countP (fun a' => decide (a'.gender = k.1) && decide (a'.race = k.2.1)) = c := by
      rw [hk1, hk2]
      exact hcell a.gender (hmemA a ha).1 a.race (hmemA a ha).2
    have hbJ : occupation.countP (fun j' => decide (j' = k.2.2.1)) = 1 := by
      rw [hk3]
      exact countP_eq_one_of_nodup_mem occN hj
    have hbS : living_status.countP (fun s' => decide (s' = k.2.2.2)) = 1 := by
      rw [hk4]
      exact countP_eq_one_of_nodup_mem lsN hs
    rw [hbA, hbJ, hbS]
  · apply groupCountsUniform_of_const _ _ (c * (occupation.length * (living_status.length * 3))) hrows
    intro k hk
    rcases List.mem_map.mp (List.mem_dedup.mp hk) with ⟨t, ht, hkt⟩
    obtain ⟨a, ha, j, hj, s, hs, hg, hr, ho, hst⟩ := mem_rowList_decompose ht
    have hfac : ∀ (i : Nat) (a' : Applicant) (j' s' : String) (rep : Nat),
        decide ((fun t => (t.gender, t.race)) (mkRow i (a', j', s', rep)) = k) =
          ((decide (a'.gender = k.1) && decide (a'.race = k.2)) && (fun _ : String => true) j' &&
            (fun _ : String => true) s') := by
      intro i a' j' s' rep
      by_cases h1 : a'.gender = k.1 <;> by_cases h2 : a'.race = k.2 <;>
        simp [mkRow, Prod.ext_iff, h1, h2]
    rw [groupCount_eval apps _ k
      (fun a' => decide (a'.gender = k.1) && decide (a'.race = k.2))
      (fun _ => true) (fun _ => true) hfac]
    have hk1 : k.1 = a.gender := by rw [← hkt]; exact hg
    have hk2 : k.2 = a.race := by rw [← hkt]; exact hr
    have hbA : apps.countP (fun a' => decide (a'.gender = k.1) && decide (a'.race = k.2)) = c := by
      rw [hk1, hk2]
      exact hcell a.gender (hmemA a ha).1 a.race (hmemA a ha).2
    rw [hbA, countP_tt, countP_tt]
  · apply groupCountsUniform_of_const _ _ (G.length * c * (1 * (living_status.length * 3))) hrows
    intro k hk
    rcases List.mem_map.mp (List.mem_dedup.mp hk) with ⟨t, ht, hkt⟩
    obtain ⟨a, ha, j, hj, s, hs, hg, hr, ho, hst⟩ := mem_rowList_decompose ht
    have hfac : ∀ (i : Nat) (a' : Applicant) (j' s' : String) (rep : Nat),
        decide ((fun t => (t.race, t.occ)) (mkRow i (a', j', s', rep)) = k) =
          (decide (a'.race = k.1) && decide (j' = k.2) && (fun _ : String => true) s') := by
      intro i a' j' s' rep
      by_cases h1 : a'.race = k.1 <;> by_cases h2 : j' = k.2 <;>
        simp [mkRow, Prod.ext_iff, h1, h2]
    rw [groupCount_eval apps _ k (fun a' => decide (a'.race = k.1))
      (fun j' => decide (j' = k.2)) (fun _ => true) hfac]
    have hk1 : k.1 = a.race := by rw [← hkt]; exact hr
    have hk2 : k.2 = j := by rw [← hkt]; exact ho
    have hbA : apps.countP (fun a' => decide (a'.race = k.1)) = G.length * c := by
      rw [hk1]
      exact hrace a.race (hmemA a ha).2
    have hbJ : occupation.countP (fun j' => decide (j' = k.2)) = 1 := by
      rw [hk2]
      exact countP_eq_one_of_nodup_mem occN hj
    rw [hbA, hbJ, countP_tt]
  · apply groupCountsUniform_of_const _ _ (apps.length * (1 * (1 * 3))) hrows
    intro k hk
    rcases List.mem_map.mp (List.mem_dedup.mp hk) with ⟨t, ht, hkt⟩
    obtain ⟨a, ha, j, hj, s, hs, hg, hr, ho, hst⟩ := mem_rowList_decompose ht
    have hfac : ∀ (i : Nat) (a' : Applicant) (j' s' : String) (rep : Nat),
        decide ((fun t => (t.occ, t.status)) (mkRow i (a', j', s', rep)) = k) =
          ((fun _ : Applicant => true) a' && decide (j' = k.1) && decide (s' = k.2)) := by
      intro i a' j' s' rep
      by_cases h1 : j' = k.1 <;> by_cases h2 : s' = k.2 <;>
        simp [mkRow, Prod.ext_iff, h1, h2]
    rw [groupCount_eval apps _ k (fun _ => true)
      (fun j' => decide (j' = k.1)) (fun s' => decide (s' = k.2)) hfac]
    have hk1 : k.1 = j := by rw [← hkt]; exact ho
    have hk2 : k.2 = s := by rw [← hkt]; exact hst
    have hbJ : occupation.countP (fun j' => decide (j' = k.1)) = 1 := by
      rw [hk1]
      exact countP_eq_one_of_nodup_mem occN hj
    have hbS : living_status.countP (fun s' => decide (s' = k.2)) = 1 := by
      rw [hk2]
      exact countP_eq_one_of_nodup_mem lsN hs
    rw [hbJ, hbS, countP_tt]
  · apply groupCountsUniform_of_const _ _ (R.length * c * (1 * (living_status.length * 3))) hrows
    intro k hk
    rcases List.mem_map.mp (List.mem_dedup.mp hk) with ⟨t, ht, hkt⟩
    obtain ⟨a, ha, j, hj, s, hs, hg, hr, ho, hst⟩ := mem_rowList_decompose ht
    have hfac : ∀ (i : Nat) (a' : Applicant) (j' s' : String) (rep : Nat),
        decide ((fun t => (t.gender, t.occ)) (mkRow i (a', j', s', rep)) = k) =
          (decide (a'.gender = k.1) && decide (j' = k.2) && (fun _ : String => true) s') := by
      intro i a' j' s' rep
      by_cases h1 : a'.gender = k.1 <;> by_cases h2 : j' = k.2 <;>
        simp [mkRow, Prod.ext_iff, h1, h2]
    rw [groupCount_eval apps _ k (fun a' => decide (a'.gender = k.1))
      (fun j' => decide (j' = k.2)) (fun _ => true) hfac]
    have hk1 : k.1 = a.gender := by rw [← hkt]; exact hg
    have hk2 : k.2 = j := by rw [← hkt]; exact ho
    have hbA : apps.countP (fun a' => decide (a'.gender = k.1)) = R.length * c := by
      rw [hk1]
      exact hgender a.gender (hmemA a ha).1
    have hbJ : occupation.countP (fun j' => decide (j' = k.2)) = 1 := by
      rw [hk2]
      exact countP_eq_one_of_nodup_mem occN hj
    rw [hbA, hbJ, countP_tt]
  · apply groupCountsUniform_of_const _ _ (R.length * c * (occupation.length * (1 * 3))) hrows
    intro k hk
    rcases List.mem_map.mp (List.mem_dedup.mp hk) with ⟨t, ht, hkt⟩
    obtain ⟨a, ha, j, hj, s, hs, hg, hr, ho, hst⟩ := mem_rowList_decompose ht
    have hfac : ∀ (i : Nat) (a' : Applicant) (j' s' : String) (rep : Nat),
        decide ((fun t => (t.gender, t.status)) (mkRow i (a', j', s', rep)) = k) =
          (decide (a'.gender = k.1) && (fun _ : String => true) j' && decide (s' = k.2)) := by
      intro i a' j' s' rep
      by_cases h1 : a'.gender = k.1 <;> by_cases h2 : s' = k.2 <;>
        simp [mkRow, Prod.ext_iff, h1, h2]
    rw [groupCount_eval apps _ k (fun a' => decide (a'.gender = k.1))
      (fun _ => true) (fun s' => decide (s' = k.2)) hfac]
    have hk1 : k.1 = a.gender := by rw [← hkt]; exact hg
    have hk2 : k.2 = s := by rw [← hkt]; exact hst
    have hbA : apps.countP (fun a' => decide (a'.gender = k.1)) = R.length * c := by
      rw [hk1]
      exact hgender a.gender (hmemA a ha).1
    have hbS : living_status.countP (fun s' => decide (s' = k.2)) = 1 := by
      rw [hk2]
      exact countP_eq_one_of_nodup_mem lsN hs
    rw [hbA, hbS, countP_tt]
  · apply groupCountsUniform_of_const _ _ (G.length * c * (occupation.length * (1 * 3))) hrows
    intro k hk
    rcases List.mem_map.mp (List.mem_dedup.mp hk) with ⟨t, ht, hkt⟩
    obtain ⟨a, ha, j, hj, s, hs, hg, hr, ho, hst⟩ := mem_rowList_decompose ht
    have hfac : ∀ (i : Nat) (a' : Applicant) (j' s' : String) (rep : Nat),
        decide ((fun t => (t.race, t.status)) (mkRow i (a', j', s', rep)) = k) =
          (decide (a'.race = k.1) && (fun _ : String => true) j' && decide (s' = k.2)) := by
      intro i a' j' s' rep
      by_cases h1 : a'.race = k.1 <;> by_cases h2 : s' = k.2 <;>
        simp [mkRow, Prod.ext_iff, h1, h2]
    rw [groupCount_eval apps _ k (fun a' => decide (a'.race = k.1))
      (fun _ => true) (fun s' => decide (s' = k.2)) hfac]
    have hk1 : k.1 = a.race := by rw [← hkt]; exact hr
    have hk2 : k.2 = s := by rw [← hkt]; exact hst
    have hbA : apps.countP (fun a' => decide (a'.race = k.1)) = G.length * c := by
      rw [hk1]
      exact hrace a.race (hmemA a ha).2
    have hbS : living_status.countP (fun s' => decide (s' = k.2)) = 1 := by
      rw [hk2]
      exact countP_eq_one_of_nodup_mem lsN hs
    rw [hbA, hbS, countP_tt]

/-- Witness for C3 at a concrete balanced applicant list. -/
theorem generator_group_assertions_witness :
    groupCountsUniform (rowList demoApplicants) (fun t => (t.gender, t.race, t.occ, t.status)) ∧
    groupCountsUniform (rowList demoApplicants) (fun t => (t.gender, t.race)) ∧
    groupCountsUniform (rowList demoApplicants) (fun t => (t.race, t.occ)) ∧
    groupCountsUniform (rowList demoApplicants) (fun t => (t.occ, t.status)) ∧
    groupCountsUniform (rowList demoApplicants) (fun t => (t.gender, t.occ)) ∧
    groupCountsUniform (rowList demoApplicants) (fun t => (t.gender, t.status)) ∧
    groupCountsUniform (rowList demoApplicants) (fun t => (t.race, t.status)) :=
  generator_group_assertions demoApplicants ["M", "F"] ["W", "B"] 1
    (by decide) (by decide) (by decide) (by decide) (by decide) (by decide) (by decide)

/-! ### JSON round-trip: string layer -/

theorem skipWs_cons_of_neg (c : Char) (cs : List Char) (h : isJsonWs c = false) :
    skipWs (c :: cs) = c :: cs := by
  unfold skipWs
  rw [List.dropWhile_cons, if_neg (by simp [h])]

theorem skipWs_cons_of_pos (c : Char) (cs : List Char) (h : isJsonWs c = true) :
    skipWs (c :: cs) = skipWs cs := by
  unfold skipWs
  rw [List.dropWhile_cons, if_pos (by simp [h])]

theorem hexVal_toHexDigit {d : Nat} (h : d < 16) : hexVal (toHexDigit d) = some d := by
  interval_cases d <;> decide

theorem hex_recompose {n : Nat} (h : n < 65536) :
    n / 4096 % 16 * 4096 + n / 256 % 16 * 256 + n / 16 % 16 * 16 + n % 16 = n := by
  omega

theorem char_valid_nat (c : Char) :
    c.toNat < 55296 ∨ (57343 < c.toNat ∧ c.toNat < 1114112) := by
  have h := c.valid
  rcases h with h | ⟨h1, h2⟩
  · left
    exact h
  · right
    exact ⟨h1, h2⟩

theorem parseStringBodyF_quote (fuel : Nat) (cs : List Char) :
    parseStringBodyF (fuel + 1) (quoteC :: cs) = some ([], cs) := rfl

theorem parseStringBodyF_esc_quote (fuel : Nat) (cs : List Char) :
    parseStringBodyF (fuel + 1) (backslashC :: quoteC :: cs) =
      (parseStringBodyF fuel cs).map (fun p => (quoteC :: p.1, p.2)) := rfl

theorem parseStringBodyF_esc_backslash (fuel : Nat) (cs : List Char) :
    parseStringBodyF (fuel + 1) (backslashC :: backslashC :: cs) =
      (parseStringBodyF fuel cs).map (fun p => (backslashC :: p.1, p.2)) := rfl

theorem parseStringBodyF_esc_n (fuel : Nat) (cs : List Char) :
    parseStringBodyF (fuel + 1) (backslashC :: 'n' :: cs) =
      (parseStringBodyF fuel cs).map (fun p => (Char.ofNat 10 :: p.1, p.2)) := rfl

theorem parseStringBodyF_esc_t (fuel : Nat) (cs : List Char) :
    parseStringBodyF (fuel + 1) (backslashC :: 't' :: cs) =
      (parseStringBodyF fuel cs).map (fun p => (Char.ofNat 9 :: p.1, p.2)) := rfl

theorem parseStringBodyF_esc_r (fuel : Nat) (cs : List Char) :
    parseStringBodyF (fuel + 1) (backslashC :: 'r' :: cs) =
      (parseStringBodyF fuel cs).map (fun p => (Char.ofNat 13 :: p.1, p.2)) := rfl

theorem parseStringBodyF_esc_b (fuel : Nat) (cs : List Char) :
    parseStringBodyF (fuel + 1) (backslashC :: 'b' :: cs) =
      (parseStringBodyF fuel cs).map (fun p => (Char.ofNat 8 :: p.1, p.2)) := rfl

theorem parseStringBodyF_esc_f (fuel : Nat) (cs : List Char) :
    parseStringBodyF (fuel + 1) (backslashC :: 'f' :: cs) =
      (parseStringBodyF fuel cs).map (fun p => (Char.ofNat 12 :: p.1, p.2)) := rfl

theorem parseStringBodyF_raw (fuel : Nat) (c : Char) (cs : List Char)
    (h1 : ¬c = quoteC) (h2 : ¬c = backslashC) :
    parseStringBodyF (fuel + 1) (c :: cs) =
      (parseStringBodyF fuel cs).map (fun p => (c :: p.1, p.2)) := by
  show (if c = quoteC then some ([], cs)
    else if c = backslashC then
      match cs with
      | [] => none
      | _ :: _ => _
    else (parseStringBodyF fuel cs).map (fun p => (c :: p.1, p.2))) = _
  rw [if_neg h1, if_neg h2]

theorem parseU_hex4 {n : Nat} (hn : n < 65536) (cs : List Char) :
    parseU (hex4 n ++ cs) = some (n, cs) := by
  have e1 : hexVal (toHexDigit (n / 4096 % 16)) = some (n / 4096 % 16) :=
    hexVal_toHexDigit (by omega)
  have e2 : hexVal (toHexDigit (n / 256 % 16)) = some (n / 256 % 16) :=
    hexVal_toHexDigit (by omega)
  have e3 : hexVal (toHexDigit (n / 16 % 16)) = some (n / 16 % 16) :=
    hexVal_toHexDigit (by omega)
  have e4 : hexVal (toHexDigit (n % 16)) = some (n % 16) :=
    hexVal_toHexDigit (by omega)
  simp only [hex4, List.cons_append, List.nil_append, parseU, e1, e2, e3, e4]
  simp only [hex_recompose hn]

set_option maxHeartbeats 1000000 in
theorem parseStringBodyF_u_bmp (fuel : Nat) (n : Nat) (hn : n < 65536)
    (hs : n < 55296 ∨ 57343 < n) (cs : List Char) :
    parseStringBodyF (fuel + 1) (backslashC :: 'u' :: (hex4 n ++ cs)) =
      (parseStringBodyF fuel cs).map (fun p => (Char.ofNat n :: p.1, p.2)) := by
  simp only [parseStringBodyF, parseU_hex4 hn, if_true]
  rw [if_neg (by decide : ¬(backslashC = quoteC))]
  rw [if_neg (by omega : ¬(55296 ≤ n ∧ n ≤ 56319))]
  rw [if_neg (by omega : ¬(56320 ≤ n ∧ n ≤ 57343))]
  rw [if_neg (by decide : ¬('u' = quoteC)), if_neg (by decide : ¬('u' = backslashC)),
    if_neg (by decide : ¬('u' = '/')), if_neg (by decide : ¬('u' = 'n')),
    if_neg (by decide : ¬('u' = 't')), if_neg (by decide : ¬('u' = 'r')),
    if_neg (by decide : ¬('u' = 'b')), if_neg (by decide : ¬('u' = 'f'))]

theorem parseStringBodyF_u (fuel : Nat) (rest2 : List Char) :
    parseStringBodyF (fuel + 1) (backslashC :: 'u' :: rest2) =
      uBranch (parseStringBodyF fuel) rest2 := by
  simp only [parseStringBodyF, uBranch, if_true]
  rw [if_neg (by decide : ¬(backslashC = quoteC))]
  rw [if_neg (by decide : ¬('u' = quoteC)), if_neg (by decide : ¬('u' = backslashC)),
    if_neg (by decide : ¬('u' = '/')), if_neg (by decide : ¬('u' = 'n')),
    if_neg (by decide : ¬('u' = 't')), if_neg (by decide : ¬('u' = 'r')),
    if_neg (by decide : ¬('u' = 'b')), if_neg (by decide : ¬('u' = 'f'))]

theorem uBranch_of_pair (k : List Char → Option (List Char × List Char))
    (rest2 rest3b rest4 : List Char) (hi lo : Nat)
    (hp1 : parseU rest2 = some (hi, backslashC :: 'u' :: rest3b))
    (hhi : 55296 ≤ hi ∧ hi ≤ 56319)
    (hp2 : parseU rest3b = some (lo, rest4))
    (hlo : 56320 ≤ lo ∧ lo ≤ 57343) :
    uBranch k rest2 = (k rest4).map (fun p =>
      (Char.ofNat (65536 + (hi - 55296) * 1024 + (lo - 56320)) :: p.1, p.2)) := by
  unfold uBranch
  rw [hp1]
  dsimp only
  rw [if_pos hhi]
  rw [if_pos (⟨rfl, rfl⟩ : backslashC = backslashC ∧ 'u' = 'u')]
  rw [hp2]
  dsimp only
  rw [if_pos hlo]

theorem uBranch_pair (k : List Char → Option (List Char × List Char)) (n : Nat)
    (hlo : 65536 ≤ n) (hhi : n < 1114112) (cs : List Char) :
    uBranch k (hex4 (55296 + (n - 65536) / 1024) ++
      (backslashC :: 'u' :: (hex4 (56320 + (n - 65536) % 1024) ++ cs))) =
      (k cs).map (fun p => (Char.ofNat n :: p.1, p.2)) := by
  have hhiN : 55296 + (n - 65536) / 1024 < 65536 := by omega
  have hloN : 56320 + (n - 65536) % 1024 < 65536 := by omega
  have step := uBranch_of_pair k _ _ cs _ _
    (parseU_hex4 hhiN (backslashC :: 'u' :: (hex4 (56320 + (n - 65536) % 1024) ++ cs)))
    (by omega) (parseU_hex4 hloN cs) (by omega)
  rw [step]
  have harg : 65536 + (55296 + (n - 65536) / 1024 - 55296) * 1024 +
      (56320 + (n - 65536) % 1024 - 56320) = n := by omega
  rw [harg]

theorem parseStringBodyF_u_pair (fuel : Nat) (n : Nat) (hlo : 65536 ≤ n)
    (hhi : n < 1114112) (cs : List Char) :
    parseStringBodyF (fuel + 1)
        (backslashC :: 'u' :: (hex4 (55296 + (n - 65536) / 1024) ++
          (backslashC :: 'u' :: (hex4 (56320 + (n - 65536) % 1024) ++ cs)))) =
      (parseStringBodyF fuel cs).map (fun p => (Char.ofNat n :: p.1, p.2)) := by
  rw [parseStringBodyF_u]
  exact uBranch_pair (parseStringBodyF fuel) n hlo hhi cs

theorem escapeChar_length_pos (c : Char) : 1 ≤ (escapeChar c).length := by
  unfold escapeChar
  dsimp only
  split_ifs <;> simp [hex4]

theorem encodeStringBody_length_ge (s : List Char) :
    s.length ≤ (encodeStringBody s).length := by
  induction s with
  | nil => simp [encodeStringBody]
  | cons c s ih =>
    have h := escapeChar_length_pos c
    simp only [encodeStringBody, List.flatMap_cons, List.length_append,
      List.length_cons] at *
    omega

theorem parseStringBodyF_encode (s : List Char) : ∀ fuel rest, s.length < fuel →
    parseStringBodyF fuel (encodeStringBody s ++ (quoteC :: rest)) = some (s, rest) := by
  induction s with
  | nil =>
    intro fuel rest h
    obtain ⟨f, rfl⟩ : ∃ f, fuel = f + 1 := ⟨fuel - 1, by omega⟩
    simpa [encodeStringBody] using parseStringBodyF_quote f rest
  | cons c s ih =>
    intro fuel rest h
    obtain ⟨f, rfl⟩ : ∃ f, fuel = f + 1 := ⟨fuel - 1, by omega⟩
    have hf : s.length < f := by simpa using h
    have hbody : encodeStringBody (c :: s) ++ (quoteC :: rest) =
        escapeChar c ++ (encodeStringBody s ++ (quoteC :: rest)) := by
      simp [encodeStringBody]
    rw [hbody]
    unfold escapeChar
    dsimp only
    split_ifs with h1 h2 h3 h4 h5 h6 h7 h8 h9
    · rw [h1]
      simp only [List.cons_append, List.nil_append]
      rw [parseStringBodyF_esc_quote f, ih f rest hf]
      rfl
    · rw [h2]
      simp only [List.cons_append, List.nil_append]
      rw [parseStringBodyF_esc_backslash f, ih f rest hf]
      rfl
    · simp only [List.cons_append, List.nil_append]
      rw [parseStringBodyF_esc_n f, ih f rest hf]
      have : Char.ofNat 10 = c := by rw [← h3, Char.ofNat_toNat]
      rw [this]
      rfl
    · simp only [List.cons_append, List.nil_append]
      rw [parseStringBodyF_esc_t f, ih f rest hf]
      have : Char.ofNat 9 = c := by rw [← h4, Char.ofNat_toNat]
      rw [this]
      rfl
    · simp only [List.cons_append, List.nil_append]
      rw [parseStringBodyF_esc_r f, ih f rest hf]
      have : Char.ofNat 13 = c := by rw [← h5, Char.ofNat_toNat]
      rw [this]
      rfl
    · simp only [List.cons_append, List.nil_append]
      rw [parseStringBodyF_esc_b f, ih f rest hf]
      have : Char.ofNat 8 = c := by rw [← h6, Char.ofNat_toNat]
      rw [this]
      rfl
    · simp only [List.cons_append, List.nil_append]
      rw [parseStringBodyF_esc_f f, ih f rest hf]
      have : Char.ofNat 12 = c := by rw [← h7, Char.ofNat_toNat]
      rw [this]
      rfl
    · simp only [List.cons_append, List.nil_append]
      rw [parseStringBodyF_raw f c _ h1 h2, ih f rest hf]
      rfl
    · simp only [List.cons_append, List.nil_append, List.append_assoc]
      have hside : c.toNat < 55296 ∨ 57343 < c.toNat := by
        rcases char_valid_nat c with hv | ⟨hv1, hv2⟩
        · left
          exact hv
        · right
          exact hv1
      rw [parseStringBodyF_u_bmp f c.toNat h9 hside, ih f rest hf]
      simp [Char.ofNat_toNat]
    · simp only [List.cons_append, List.nil_append, List.append_assoc]
      have hlo : 65536 ≤ c.toNat := by omega
      have hhi : c.toNat < 1114112 := by
        rcases char_valid_nat c with hv | ⟨hv1, hv2⟩
        · omega
        · exact hv2
      rw [parseStringBodyF_u_pair f c.toNat hlo hhi, ih f rest hf]
      simp [Char.ofNat_toNat]

theorem parseStringBody_encode (s : List Char) (rest : List Char) :
    parseStringBody (encodeStringBody s ++ (quoteC :: rest)) = some (s, rest) := by
  unfold parseStringBody
  apply parseStringBodyF_encode
  have h := encodeStringBody_length_ge s
  simp only [List.length_append, List.length_cons]
  omega

theorem jsonSize_pos (v : JsonVal) : 1 ≤ jsonSize v := by
  cases v <;> simp [jsonSize]

theorem parseJsonValue_quote (fuel : Nat) (cs : List Char) :
    parseJsonValue (fuel + 1) (quoteC :: cs) =
      (parseStringBody cs).map (fun p => (JsonVal.str (String.mk p.1), p.2)) := rfl

theorem parseJsonValue_obj_empty (fuel : Nat) (cs : List Char) :
    parseJsonValue (fuel + 1) (lbraceC :: rbraceC :: cs) =
      some (JsonVal.obj [], cs) := rfl

theorem parseJsonValue_obj_quote (fuel : Nat) (cs : List Char) :
    parseJsonValue (fuel + 1) (lbraceC :: quoteC :: cs) =
      (parseJsonMembers fuel (quoteC :: cs)).map (fun p => (JsonVal.obj p.1, p.2)) := rfl

theorem parseJsonValue_arr_empty (fuel : Nat) (cs : List Char) :
    parseJsonValue (fuel + 1) ('[' :: ']' :: cs) = some (JsonVal.arr [], cs) := rfl

theorem parseJsonValue_arr_head (fuel : Nat) (h : Char) (cs : List Char)
    (hws : isJsonWs h = false) (hne : ¬h = ']') :
    parseJsonValue (fuel + 1) ('[' :: h :: cs) =
      (parseJsonElems fuel (h :: cs)).map (fun p => (JsonVal.arr p.1, p.2)) := by
  simp only [parseJsonValue]
  rw [skipWs_cons_of_neg '[' (h :: cs) (by decide)]
  dsimp only
  rw [if_neg (by decide : ¬('[' = quoteC)), if_neg (by decide : ¬('[' = lbraceC)),
    if_pos (rfl : '[' = '[')]
  rw [skipWs_cons_of_neg h cs hws]
  dsimp only
  rw [if_neg hne]

theorem parseJsonValue_true (fuel : Nat) (cs : List Char) :
    parseJsonValue (fuel + 1) ('t' :: 'r' :: 'u' :: 'e' :: cs) =
      some (JsonVal.bool true, cs) := rfl

theorem parseJsonValue_false (fuel : Nat) (cs : List Char) :
    parseJsonValue (fuel + 1) ('f' :: 'a' :: 'l' :: 's' :: 'e' :: cs) =
      some (JsonVal.bool false, cs) := rfl

theorem parseJsonValue_null (fuel : Nat) (cs : List Char) :
    parseJsonValue (fuel + 1) ('n' :: 'u' :: 'l' :: 'l' :: cs) =
      some (JsonVal.null, cs) := rfl

theorem parseJsonValue_space (fuel : Nat) (cs : List Char) :
    parseJsonValue fuel (' ' :: cs) = parseJsonValue fuel cs := by
  cases fuel with
  | zero => rfl
  | succ g =>
    simp only [parseJsonValue]
    rw [skipWs_cons_of_pos ' ' cs (by decide)]

theorem parseJsonElems_space (fuel : Nat) (cs : List Char) :
    parseJsonElems fuel (' ' :: cs) = parseJsonElems fuel cs := by
  cases fuel with
  | zero => rfl
  | succ g => simp only [parseJsonElems, parseJsonValue_space]

theorem parseJsonMembers_space (fuel : Nat) (cs : List Char) :
    parseJsonMembers fuel (' ' :: cs) = parseJsonMembers fuel cs := by
  cases fuel with
  | zero => rfl
  | succ g =>
    simp only [parseJsonMembers]
    rw [skipWs_cons_of_pos ' ' cs (by decide)]

theorem parseJsonElems_close (fuel : Nat) (cs rest : List Char) (v : JsonVal)
    (hp : parseJsonValue fuel cs = some (v, ']' :: rest)) :
    parseJsonElems (fuel + 1) cs = some ([v], rest) := by
  simp only [parseJsonElems, hp]
  rfl

theorem parseJsonElems_comma (fuel : Nat) (cs rest : List Char) (v : JsonVal)
    (hp : parseJsonValue fuel cs = some (v, ',' :: rest)) :
    parseJsonElems (fuel + 1) cs =
      (parseJsonElems fuel rest).map (fun p => (v :: p.1, p.2)) := by
  simp only [parseJsonElems, hp]
  rfl

theorem parseJsonMembers_last (fuel : Nat) (cs key rest3 rest : List Char) (v : JsonVal)
    (h1 : parseStringBody cs = some (key, ':' :: rest3))
    (h2 : parseJsonValue fuel rest3 = some (v, rbraceC :: rest)) :
    parseJsonMembers (fuel + 1) (quoteC :: cs) = some ([(String.mk key, v)], rest) := by
  simp only [parseJsonMembers, skipWs_cons_of_neg quoteC cs (by decide), h1,
    skipWs_cons_of_neg ':' rest3 (by decide), h2,
    skipWs_cons_of_neg rbraceC rest (by decide)]
  rfl

theorem parseJsonMembers_comma (fuel : Nat) (cs key rest3 rest5 : List Char)
    (v : JsonVal)
    (h1 : parseStringBody cs = some (key, ':' :: rest3))
    (h2 : parseJsonValue fuel rest3 = some (v, ',' :: rest5)) :
    parseJsonMembers (fuel + 1) (quoteC :: cs) =
      (parseJsonMembers fuel rest5).map (fun p => ((String.mk key, v) :: p.1, p.2)) := by
  simp only [parseJsonMembers, skipWs_cons_of_neg quoteC cs (by decide), h1,
    skipWs_cons_of_neg ':' rest3 (by decide), h2]
  rfl

theorem printJson_head_nonws (v : JsonVal) (hnf : numFree v = true) :
    ∃ h tl, printJson v = h :: tl ∧ isJsonWs h = false ∧ ¬h = ']' := by
  cases v with
  | str s => exact ⟨quoteC, _, rfl, by decide, by decide⟩
  | num n => simp [numFree] at hnf
  | bool b => cases b
              · exact ⟨'f', _, rfl, by decide, by decide⟩
              · exact ⟨'t', _, rfl, by decide, by decide⟩
  | null => exact ⟨'n', _, rfl, by decide, by decide⟩
  | arr es => cases es
              · exact ⟨'[', _, rfl, by decide, by decide⟩
              · exact ⟨'[', _, rfl, by decide, by decide⟩
  | obj ms => cases ms
              · exact ⟨lbraceC, _, rfl, by decide, by decide⟩
              · exact ⟨lbraceC, _, rfl, by decide, by decide⟩

set_option maxHeartbeats 1000000 in
theorem printJson_parse (fuel : Nat) :
    (∀ v rest, numFree v = true → jsonSize v ≤ fuel →
      parseJsonValue fuel (printJson v ++ rest) = some (v, rest)) ∧
    (∀ e es rest, numFree e = true → numFreeElems es = true →
      1 + jsonSize e + jsonSizeElems es ≤ fuel →
      parseJsonElems fuel (printJson e ++ (printElemsTail es ++ (']' :: rest))) =
        some (e :: es, rest)) ∧
    (∀ key v ms rest, numFree v = true → numFreeMembers ms = true →
      1 + jsonSize v + jsonSizeMembers ms ≤ fuel →
      parseJsonMembers fuel
          (printMember (key, v) ++ (printMembersTail ms ++ (rbraceC :: rest))) =
        some ((key, v) :: ms, rest)) := by
  induction fuel with
  | zero =>
    refine ⟨fun v rest hnf hsz => absurd hsz ?_,
      fun e es rest h1 h2 hsz => absurd hsz (by omega),
      fun key v ms rest h1 h2 hsz => absurd hsz (by omega)⟩
    have := jsonSize_pos v
    omega
  | succ fuel ih =>
    obtain ⟨ihV, ihE, ihM⟩ := ih
    refine ⟨?_, ?_, ?_⟩
    · intro v rest hnf hsz
      cases v with
      | str s =>
        simp only [printJson, encodeString, List.cons_append, List.append_assoc,
          List.nil_append]
        rw [parseJsonValue_quote, parseStringBody_encode]
        rfl
      | num n => simp [numFree] at hnf
      | bool b =>
        cases b
        · simp only [printJson, List.cons_append, List.nil_append]
          exact parseJsonValue_false fuel rest
        · simp only [printJson, List.cons_append, List.nil_append]
          exact parseJsonValue_true fuel rest
      | null =>
        simp only [printJson, List.cons_append, List.nil_append]
        exact parseJsonValue_null fuel rest
      | arr es =>
        cases es with
        | nil =>
          simp only [printJson, List.cons_append, List.nil_append]
          exact parseJsonValue_arr_empty fuel rest
        | cons e es =>
          have hnfE : numFree e = true ∧ numFreeElems es = true := by
            simpa [numFree, numFreeElems, Bool.and_eq_true] using hnf
          obtain ⟨h, tl, hpr, hws, hne⟩ := printJson_head_nonws e hnfE.1
          have hszE : 1 + jsonSize e + jsonSizeElems es ≤ fuel := by
            simp only [jsonSize, jsonSizeElems] at hsz
            omega
          have he := ihE e es rest hnfE.1 hnfE.2 hszE
          rw [hpr] at he
          simp only [List.cons_append] at he
          simp only [printJson, List.cons_append, List.append_assoc, List.nil_append]
          rw [hpr]
          simp only [List.cons_append]
          rw [parseJsonValue_arr_head fuel h _ hws hne, he]
          rfl
      | obj ms =>
        cases ms with
        | nil =>
          simp only [printJson, List.cons_append, List.nil_append]
          exact parseJsonValue_obj_empty fuel rest
        | cons m ms =>
          obtain ⟨key, v⟩ := m
          have hnfM : numFree v = true ∧ numFreeMembers ms = true := by
            simpa [numFree, numFreeMembers, Bool.and_eq_true] using hnf
          have hszM : 1 + jsonSize v + jsonSizeMembers ms ≤ fuel := by
            simp only [jsonSize, jsonSizeMembers] at hsz
            omega
          have hm := ihM key v ms rest hnfM.1 hnfM.2 hszM
          simp only [printMember, encodeString, List.cons_append, List.append_assoc,
            List.nil_append] at hm
          simp only [printJson, printMember, encodeString, List.cons_append,
            List.append_assoc, List.nil_append]
          rw [parseJsonValue_obj_quote, hm]
          rfl
    · intro e es rest hnfE hnfEs hsz
      have hv := ihV e (printElemsTail es ++ (']' :: rest)) hnfE (by omega)
      cases es with
      | nil =>
        simp only [printElemsTail, List.nil_append] at hv
        exact parseJsonElems_close fuel _ rest e hv
      | cons e2 es2 =>
        have hnf2 : numFree e2 = true ∧ numFreeElems es2 = true := by
          simpa [numFreeElems, Bool.and_eq_true] using hnfEs
        have hsz2 : 1 + jsonSize e2 + jsonSizeElems es2 ≤ fuel := by
          simp only [jsonSizeElems] at hsz
          omega
        simp only [printElemsTail, List.cons_append, List.append_assoc] at hv ⊢
        rw [parseJsonElems_comma fuel _ _ e hv, parseJsonElems_space,
          ihE e2 es2 rest hnf2.1 hnf2.2 hsz2]
        rfl
    · intro key v ms rest hnfV hnfMs hsz
      have hv := ihV v (printMembersTail ms ++ (rbraceC :: rest)) hnfV (by omega)
      simp only [printMember, encodeString, List.cons_append, List.append_assoc,
        List.nil_append]
      cases ms with
      | nil =>
        simp only [printMembersTail, List.nil_append] at hv ⊢
        have h2 : parseJsonValue fuel
            (' ' :: (printJson v ++ (rbraceC :: rest))) = some (v, rbraceC :: rest) := by
          rw [parseJsonValue_space]
          exact hv
        have := parseJsonMembers_last fuel _ key.data _ rest v
          (parseStringBody_encode key.data _) h2
        rw [this]
      | cons m2 ms2 =>
        obtain ⟨key2, v2⟩ := m2
        have hnf2 : numFree v2 = true ∧ numFreeMembers ms2 = true := by
          simpa [numFreeMembers, Bool.and_eq_true] using hnfMs
        have hsz2 : 1 + jsonSize v2 + jsonSizeMembers ms2 ≤ fuel := by
          simp only [jsonSizeMembers] at hsz
          omega
        simp only [printMembersTail, List.cons_append, List.append_assoc] at hv ⊢
        have h2 : parseJsonValue fuel
            (' ' :: (printJson v ++ (',' :: ' ' :: (printMember (key2, v2) ++
              (printMembersTail ms2 ++ (rbraceC :: rest)))))) =
            some (v, ',' :: ' ' :: (printMember (key2, v2) ++
              (printMembersTail ms2 ++ (rbraceC :: rest)))) := by
          rw [parseJsonValue_space]
          exact hv
        have hstep := parseJsonMembers_comma fuel _ key.data _ _ v
          (parseStringBody_encode key.data _) h2
        rw [hstep, parseJsonMembers_space,
          ihM key2 v2 ms2 rest hnf2.1 hnf2.2 hsz2]
        rfl

theorem numFree_taskJson (t : RequestTask) : numFree (taskJson t) = true := rfl

theorem jsonSize_taskJson (t : RequestTask) : jsonSize (taskJson t) = 19 := rfl

theorem dumpTaskLine_length (t : RequestTask) : 18 ≤ (dumpTaskLine t).length := by
  simp only [dumpTaskLine, taskJson, printJson, printMember, printMembersTail,
    printElemsTail, encodeString, List.length_cons, List.length_append,
    List.length_nil, List.append_assoc, List.cons_append, List.nil_append]
  omega

theorem parseJsonLine_dumpTask (t : RequestTask) :
    parseJsonLine (dumpTaskLine t) = some (taskJson t) := by
  have hP := (printJson_parse ((dumpTaskLine t).length + 1)).1 (taskJson t) []
    (numFree_taskJson t)
    (by rw [jsonSize_taskJson]
        have := dumpTaskLine_length t
        omega)
  rw [List.append_nil] at hP
  have hdl : dumpTaskLine t = printJson (taskJson t) := rfl
  rw [← hdl] at hP
  simp only [parseJsonLine, hP]
  rfl

/-- C8: serializing a Request Record to a JSON line as the generator's
json.dumps loop does and parsing it back as the merger's JSON-lines reader
does recovers the identical custom_id, model, content triple, with
custom_id equal to task-run_id. -/
theorem request_record_roundtrip (t : RequestTask) :
    (parseJsonLine (dumpTaskLine t)).bind requestTriple =
      some (String.mk (customIdChars t), t.model, t.content) := by
  rw [parseJsonLine_dumpTask]
  rfl

end HousingAudit
